import Mathlib

/-!
# Abyssinia-Lang: a shallow embedding of the lexer and tree-walking interpreter

This file embeds, in Lean 4, the core of the Abyssinia-Lang implementation:

* `src/lexer.py` — `normalize_code` and `tokenize`,
* `src/interpreter/evaluator.py` — `evaluate`,
* `src/interpreter/executor.py` — `execute` / `run`,
* the error kinds of `src/error.py` (`LexerError`, `ParseError`,
  `InterpreterError`, all subclasses of Python's `Exception`).

Modelling conventions:

* Source text is a `List Char`.  The Unicode NFKC step of `normalize_code`
  is modelled by `nfkc`: canonical composition of an adjacent base plus
  combining-acute pair, with every other character inert and blocking.
  On strings of `modeledChar` characters (ASCII, the Latin-1 letters, the
  Ethiopic block, the punctuation glyphs `normalize_code` rewrites, and
  the soft hyphen) real NFKC is the identity — none of them decomposes,
  none is a combining mark or jamo — so there the model is exact; the
  combining acute U+0301 is carried along to exhibit NFKC's one
  observable interaction with the soft-hyphen deletion (see C8).
* Python numbers are modelled by `Rat` (exact host arithmetic; `/` is exact
  division where Python produces a float).
* The global mutable module state `interpreter/env.py` (four dicts) becomes
  an explicit state record `St` threaded through evaluation.  A Python dict
  is an insertion-ordered association list: lookup finds the unique entry,
  assignment overwrites in place or appends.
* Errors: Python exceptions become an `Err` sum.  `Err.interp`/`Err.lexer`/
  `Err.parse` are the three `BaseError` subclasses; `Err.host` is any other
  host (`Exception`-level) failure such as a `TypeError` or a bare
  `raise Exception(...)`.  The top-level driver (`main.py`) catches only
  `BaseError`; `Err.host` falls through to its "Internal interpreter error"
  branch.
* The parser composition (`parser/__init__.py` and the expression/statement
  sub-grammars) is not among the provided sources; interpretation is
  therefore parameterised by a `parse` function in the context `Ctx`, used
  only by the import statement.
-/

namespace Abyssinia

/-! ## Characters and character classes (lexer.py) -/

/-- Python `str.isspace` restricted to the characters the pipeline uses. -/
def isSpaceCh (c : Char) : Bool :=
  c = ' ' || c = '\t' || c = '\n' || c = '\r' || c = '\x0b' || c = '\x0c'

/-- Python's regex `\w` (plus the redundant `ሀ-ፐ` range of the identifier
class) on the modelled repertoire: ASCII letters, ASCII digits, underscore,
the Latin-1 letters U+00C0–U+00FF (all Unicode letters; `×`/`÷` excluded),
and the Ethiopic syllables U+1200–U+135A.  The Ethiopic punctuation marks
U+1361–U+1368 (`።`, `፣`, `፡`, …) are not word characters, and neither are
the soft hyphen, the combining acute U+0301, the smart quotes, or any
ASCII operator/punctuation. -/
def isWordCh (c : Char) : Bool :=
  (('a' ≤ c && c ≤ 'z') || ('A' ≤ c && c ≤ 'Z') || ('0' ≤ c && c ≤ '9')
    || c = '_'
    || (0xC0 ≤ c.toNat && c.toNat ≤ 0xFF && !(c.toNat = 0xD7) && !(c.toNat = 0xF7))
    || (0x1200 ≤ c.toNat && c.toNat ≤ 0x135A))

/-- The character repertoire on which the `nfkc` model below is exact:
ASCII, the Latin-1 letters, the Ethiopic block (syllables, punctuation and
digits), the quote/angle glyphs `normalize_code` rewrites, and the soft
hyphen.  Every one of these characters is NFKC-stable, and none is a
combining mark or a Hangul jamo, so on strings drawn from this set the
host's NFKC pass is the identity. -/
def modeledChar (c : Char) : Bool :=
  c.toNat < 0x80
    || (0xC0 ≤ c.toNat && c.toNat ≤ 0xFF && !(c.toNat = 0xD7) && !(c.toNat = 0xF7))
    || (0x1200 ≤ c.toNat && c.toNat ≤ 0x137F)
    || c = '\u00AD'
    || c = '«' || c = '»' || c = '“' || c = '”'
    || c = '‘' || c = '’' || c = '‹' || c = '›'

/-- ASCII decimal digit, the `\d` of the NUMBER pattern. -/
def isDigitCh (c : Char) : Bool := '0' ≤ c && c ≤ '9'

/-! ## `normalize_code` (lexer.py lines 84–105)

`str.replace(old, new)` scans left to right, replacing each
non-overlapping occurrence of `old` and never rescanning the text it has
already produced.  `replaceAll` is that scan; the `skip` argument counts
characters of a match that have been consumed but not yet dropped, which
keeps the recursion structural (so that terms reduce by `rfl`). -/

def replaceAllGo (p r : List Char) : List Char → Nat → List Char
  | [], _ => []
  | _ :: cs, skip + 1 => replaceAllGo p r cs skip
  | c :: cs, 0 =>
      if p.isPrefixOf (c :: cs) then
        r ++ replaceAllGo p r cs (p.length - 1)
      else
        c :: replaceAllGo p r cs 0

/-- Python `s.replace(p, r)` for a nonempty pattern `p`. -/
def replaceAll (p r s : List Char) : List Char :=
  replaceAllGo p r s 0

/-- Apply a list of `(pattern, replacement)` substitutions in order, each
one a full `str.replace` pass over the current text. -/
def applySubs : List (List Char × List Char) → List Char → List Char
  | [], s => s
  | (p, r) :: rest, s => applySubs rest (replaceAll p r s)

/-- The literal-substitution table of `normalize_code` after the
soft-hyphen removal, in source order: native punctuation, the native
and/or words, then smart quotes and angle quotes. -/
def subsTable : List (List Char × List Char) :=
  [ (['።'], [';'])
  , (['፣'], [','])
  , (['፡'], ['.'])
  , (['እ', 'ና'], ['&', '&'])
  , (['ወ', 'ይ', 'ም'], ['|', '|'])
  , (['“'], ['"'])
  , (['”'], ['"'])
  , (['‘'], ['\''])
  , (['’'], ['\''])
  , (['‹'], ['<'])
  , (['›'], ['>'])
  , (['«'], ['<', '<'])
  , (['»'], ['>', '>']) ]

/-- The primary composites of a base character with the combining acute
U+0301 (the composition pairs reachable in the modelled repertoire). -/
def vowelAcute (b : Char) : Option Char :=
  if b = 'a' then some 'á' else if b = 'e' then some 'é'
  else if b = 'i' then some 'í' else if b = 'o' then some 'ó'
  else if b = 'u' then some 'ú'
  else if b = 'A' then some 'Á' else if b = 'E' then some 'É'
  else if b = 'I' then some 'Í' else if b = 'O' then some 'Ó'
  else if b = 'U' then some 'Ú' else Option.none

/-- Canonical composition of one adjacent pair: the second character must
be the combining acute and the first a base with a primary composite. -/
def composePair (b m : Char) : Option Char :=
  if m = '\u0301' then vowelAcute b else Option.none

/-- Modelled from the spec: the `unicodedata.normalize("NFKC", code)` pass
of `normalize_code`, restricted to the repertoire (see `modeledChar`): a
left-to-right canonical-composition scan that composes an adjacent
starter + combining-acute pair and treats every other character as inert
— in particular an intervening character (such as a soft hyphen) blocks
composition, exactly as in the host's algorithm.  Compatibility
decompositions never arise in the repertoire. -/
def nfkcGo : Char → List Char → List Char
  | b, [] => [b]
  | b, m :: rest =>
      match composePair b m with
      | some c => nfkcGo c rest
      | Option.none => b :: nfkcGo m rest

/-- See `nfkcGo`. -/
def nfkc : List Char → List Char
  | [] => []
  | c :: cs => nfkcGo c cs

/-- `normalize_code`: the NFKC pass, then soft-hyphen removal
(`.replace("­", "")`), then the substitution table. -/
def normalizeChars (s : List Char) : List Char :=
  applySubs subsTable (replaceAll ['\u00AD'] [] (nfkc s))

/-- `normalize_code` on Lean strings. -/
def normalizeCode (s : String) : String :=
  ⟨normalizeChars s.data⟩

/-! ## Tokens and the token scan (lexer.py lines 107–192) -/

/-- A lexer token `(TYPE, VALUE, LINE, COL)`.  `val` is `none` exactly for
the EOF token, whose Python `VALUE` is `None`. -/
structure Token where
  ty   : String
  val  : Option (List Char)
  line : Nat
  col  : Nat
  deriving Repr, DecidableEq

/-- The three error kinds of `error.py` plus the non-`BaseError` host
exceptions, plus an out-of-fuel marker for the fueled interpreter (never
produced when the fuel bound exceeds the host recursion actually used). -/
inductive Err where
  | lexer  (msg : String)
  | parse  (msg : String)
  | interp (msg : String)
  | host   (msg : String)
  | fuel
  deriving Repr, DecidableEq

/-- The keyword patterns of `TOKEN_REGEX`, in priority order.  Every one is
anchored by a trailing `\b`. -/
def keywordList : List (List Char × String) :=
  [ (['ከ', 'ሆ', 'ነ'], "IF")
  , (['ካ', 'ል', 'ሆ', 'ነ'], "ELSEIF")
  , (['ሌ', 'ላ'], "ELSE")
  , (['እ', 'ያ', 'ለ'], "WHILE")
  , (['ለ'], "FOR")
  , (['ከ'], "FROM")
  , (['እ', 'ስ', 'ከ'], "TO")
  , (['ተ', 'ግ', 'ባ', 'ር'], "FUN")
  , (['አ', 'ሳ', 'ይ'], "PRINT")
  , (['ጠ', 'ይ', 'ቅ'], "INPUT")
  , (['አ', 'ስ', 'ገ', 'ባ'], "IMPORT")
  , (['እ', 'ን', 'ደ'], "AS")
  , (['ክ', 'ፍ', 'ል'], "CLASS") ]

/-- The multi-character-first operator patterns of `TOKEN_REGEX`, in
priority order, ending with `=`. -/
def opList : List (List Char × String) :=
  [ (['=', '='], "EQ"), (['!', '='], "NEQ")
  , (['>', '='], "GTE"), (['<', '='], "LTE")
  , (['>'], "GT"), (['<'], "LT")
  , (['&', '&'], "AND"), (['|', '|'], "OR")
  , (['+'], "PLUS"), (['-'], "MINUS"), (['*'], "MULT"), (['/'], "DIV")
  , (['='], "EQUAL") ]

/-- `SINGLE_CHAR_TOKENS`. -/
def singleCharToken (c : Char) : Option String :=
  if c = '.' then some "DOT"
  else if c = ';' then some "SEMICOLON"
  else if c = '(' then some "LPAREN"
  else if c = ')' then some "RPAREN"
  else if c = ',' then some "COMMA"
  else if c = '{' then some "LBRACKET"
  else if c = '}' then some "RBRACKET"
  else if c = '[' then some "SLBRACKET"
  else if c = ']' then some "SRBRACKET"
  else none

/-- Index of the first occurrence of `~~` (the lazy `([\s\S]*?)~~` of the
block-comment pattern finds the nearest close). -/
def findTildes : List Char → Option Nat
  | [] => none
  | [_] => none
  | c₁ :: c₂ :: rest =>
      if c₁ = '~' && c₂ = '~' then some 0
      else (findTildes (c₂ :: rest)).map (· + 1)

/-- Content of a quoted string: the lazy `(.*?)` runs to the nearest
closing quote `q` and, having no DOTALL flag, cannot cross a newline.
Returns the inner content. -/
def strContent (q : Char) : List Char → Option (List Char)
  | [] => none
  | c :: cs =>
      if c = q then some []
      else if c = '\n' then none
      else (strContent q cs).map (c :: ·)

/-- One keyword pattern `kw\b`: the keyword must be a prefix and the
following character (if any) must not be a word character. -/
def matchKeyword (kw : List Char) (s : List Char) : Bool :=
  kw.isPrefixOf s &&
    match (s.drop kw.length).head? with
    | none => true
    | some c => !isWordCh c

/-- Try the keyword patterns in order. -/
def tryKeywords : List (List Char × String) → List Char → Option (String × List Char)
  | [], _ => none
  | (kw, ty) :: rest, s =>
      if matchKeyword kw s then some (ty, kw) else tryKeywords rest s

/-- Try the operator patterns in order. -/
def tryOps : List (List Char × String) → List Char → Option (String × List Char)
  | [], _ => none
  | (op, ty) :: rest, s =>
      if op.isPrefixOf s then some (ty, op) else tryOps rest s

/-- One attempt of the `TOKEN_REGEX` list at the current position.
Returns `(TYPE, matched text, token value)`; for COMMENT the value is
unused, for STRING it is the inner content, otherwise it is the text. -/
def tryRegex (s : List Char) : Option (String × List Char × List Char) :=
  match s with
  | [] => none
  | c :: cs =>
    -- block comment `~~([\s\S]*?)~~`
    if c = '~' && (cs.head?.getD ' ') = '~' then
      match findTildes (cs.drop 1) with
      | some j =>
          let text := s.take (j + 4)
          some ("COMMENT", text, text)
      | none => afterComments c cs s
    else afterComments c cs s
where
  /-- line comment `#.*` and everything after the comment patterns. -/
  afterComments (c : Char) (cs : List Char) (s : List Char) :
      Option (String × List Char × List Char) :=
    if c = '#' then
      let text := c :: cs.takeWhile (· ≠ '\n')
      some ("COMMENT", text, text)
    else
      match tryKeywords keywordList s with
      | some (ty, text) => some (ty, text, text)
      | none =>
        -- NUMBER `\d+`
        if isDigitCh c then
          let text := c :: cs.takeWhile isDigitCh
          some ("NUMBER", text, text)
        else
          match tryOps opList s with
          | some (ty, text) => some (ty, text, text)
          | none =>
            -- STRING `(["\'])(.*?)\1`
            if c = '"' || c = '\'' then
              match strContent c cs with
              | some inner => some ("STRING", c :: (inner ++ [c]), inner)
              | none => afterString c cs
            else afterString c cs
  /-- the final IDENTIFIER pattern `\b[\wሀ-ፐ]+\b`. -/
  afterString (c : Char) (cs : List Char) :
      Option (String × List Char × List Char) :=
    if isWordCh c then
      let text := c :: cs.takeWhile isWordCh
      some ("IDENTIFIER", text, text)
    else none

/-- Cursor advance over a matched text: `lines = text.split('\n')` has
`count '\n' + 1` pieces, and the final piece is the run after the last
newline; multi-line texts reset the column to that run's length plus 1. -/
def advanceLineCol (line col : Nat) (text : List Char) : Nat × Nat :=
  let nl := text.count '\n'
  if nl = 0 then (line, col + text.length)
  else (line + nl, (text.reverse.takeWhile (· ≠ '\n')).length + 1)

/-- The scanning loop of `tokenize`.  `skip` counts characters of the last
match still to be consumed (0 at a fresh scan position); keeping it as an
argument makes the recursion structural in the character list. -/
def tokLoop : List Char → Nat → Nat → Nat → Except Err (List Token)
  | [], _, line, col => .ok [⟨"EOF", none, line, col⟩]
  | _ :: cs, skip + 1, line, col => tokLoop cs skip line col
  | c :: cs, 0, line, col =>
      if isSpaceCh c then
        if c = '\n' then tokLoop cs 0 (line + 1) 1
        else tokLoop cs 0 line (col + 1)
      else
        match tryRegex (c :: cs) with
        | some (ty, text, value) =>
            let lc := advanceLineCol line col text
            let rest := tokLoop cs (text.length - 1) lc.1 lc.2
            if ty = "COMMENT" then rest
            else rest.map (⟨ty, some value, line, col⟩ :: ·)
        | none =>
            match singleCharToken c with
            | some ty =>
                (tokLoop cs 0 line (col + 1)).map (⟨ty, some [c], line, col⟩ :: ·)
            | none => .error (.lexer s!"Unexpected character: {String.mk [c]}")

/-- `tokenize` on character lists: normalize, then scan from line 1,
column 1. -/
def tokenizeChars (s : List Char) : Except Err (List Token) :=
  tokLoop (normalizeChars s) 0 1 1

/-- `tokenize(code)`. -/
def tokenize (s : String) : Except Err (List Token) :=
  tokenizeChars s.data

/-! ## Lemmas about `replaceAll` -/

theorem replaceAllGo_skip (p r : List Char) (s : List Char) (k : Nat) :
    replaceAllGo p r s k = replaceAll p r (s.drop k) := by
  induction s generalizing k with
  | nil => cases k <;> rfl
  | cons c cs ih =>
    cases k with
    | zero => rfl
    | succ k => simpa [replaceAllGo] using ih k

theorem replaceAll_cons_pos {p : List Char} (r : List Char) {c : Char}
    {cs : List Char} (h : p.isPrefixOf (c :: cs)) :
    replaceAll p r (c :: cs) = r ++ replaceAll p r (cs.drop (p.length - 1)) := by
  show replaceAllGo p r (c :: cs) 0 = _
  rw [replaceAllGo, if_pos h, replaceAllGo_skip]

theorem replaceAll_cons_neg {p : List Char} (r : List Char) {c : Char}
    {cs : List Char} (h : ¬ p.isPrefixOf (c :: cs)) :
    replaceAll p r (c :: cs) = c :: replaceAll p r cs := by
  show replaceAllGo p r (c :: cs) 0 = _
  rw [replaceAllGo, if_neg h]
  rfl

/-- `str.replace` is the identity when the pattern does not occur. -/
theorem replaceAll_eq_of_no_occ {p r s : List Char} (h : ¬ p <:+: s) :
    replaceAll p r s = s := by
  induction s with
  | nil => rfl
  | cons c cs ih =>
    have hpre : ¬ p.isPrefixOf (c :: cs) := fun hp =>
      h (List.isPrefixOf_iff_prefix.mp hp).isInfix
    rw [replaceAll_cons_neg r hpre, ih fun hi => h (List.infix_cons hi)]

/-- Every character of the output of `str.replace` comes from the
replacement or from the input. -/
theorem mem_replaceAll {p r : List Char} {a : Char} :
    ∀ (n : Nat) (s : List Char), s.length ≤ n →
      a ∈ replaceAll p r s → a ∈ r ∨ a ∈ s := by
  intro n
  induction n with
  | zero =>
    intro s hlen h
    rw [List.length_eq_zero.mp (Nat.le_zero.mp hlen)] at h
    simp [replaceAll, replaceAllGo] at h
  | succ n ih =>
    intro s hlen h
    match s with
    | [] => simp [replaceAll, replaceAllGo] at h
    | c :: cs =>
      by_cases hp : p.isPrefixOf (c :: cs)
      · rw [replaceAll_cons_pos r hp] at h
        rcases List.mem_append.mp h with hr | hs
        · exact Or.inl hr
        · have hlen' : (cs.drop (p.length - 1)).length ≤ n := by
            have := List.length_drop (p.length - 1) cs
            have hcs : cs.length ≤ n := by simpa using Nat.succ_le_succ_iff.mp hlen
            omega
          rcases ih _ hlen' hs with hr | hmem
          · exact Or.inl hr
          · exact Or.inr (List.mem_cons_of_mem _ ((List.drop_sublist _ _).subset hmem))
      · rw [replaceAll_cons_neg r hp] at h
        rcases List.mem_cons.mp h with rfl | hs
        · exact Or.inr (List.mem_cons_self _ _)
        · have hcs : cs.length ≤ n := by simpa using Nat.succ_le_succ_iff.mp hlen
          rcases ih _ hcs hs with hr | hmem
          · exact Or.inl hr
          · exact Or.inr (List.mem_cons_of_mem _ hmem)

/-- Single-character pattern elimination: after `s.replace(a, r)` with `a`
not occurring in `r`, the character `a` is gone. -/
theorem not_mem_replaceAll_single {a : Char} {r : List Char} (h : a ∉ r) :
    ∀ s : List Char, a ∉ replaceAll [a] r s := by
  intro s
  induction s with
  | nil => simp [replaceAll, replaceAllGo]
  | cons c cs ih =>
    by_cases hp : [a].isPrefixOf (c :: cs)
    · rw [replaceAll_cons_pos r hp]
      simp only [List.length_cons, List.length_nil, Nat.zero_add, Nat.sub_self,
        List.drop_zero]
      intro hmem
      rcases List.mem_append.mp hmem with hr | hs
      · exact h hr
      · exact ih hs
    · rw [replaceAll_cons_neg r hp]
      intro hmem
      rcases List.mem_cons.mp hmem with rfl | hs
      · exact hp (by simp [List.isPrefixOf])
      · exact ih hs

theorem mem_of_singleton_occ {a : Char} {s : List Char} (h : [a] <:+: s) :
    a ∈ s :=
  h.sublist.subset (by simp)

/-- An infix whose head avoids `r` entirely lies to the right of `r`. -/
theorem infix_append_right_of_head {q r x : List Char} {h : Char}
    (hq : q.head? = some h) (hr : h ∉ r) (hin : q <:+: r ++ x) : q <:+: x := by
  induction r with
  | nil => simpa using hin
  | cons b r' ih =>
    rcases List.infix_cons_iff.mp hin with hpre | hinf
    · match q, hq with
      | q0 :: qs, hq =>
        obtain ⟨rfl, -⟩ := List.cons_prefix_cons.mp hpre
        have hqh : q0 = h := by simpa using hq
        subst hqh
        exact absurd (List.mem_cons_self _ _) hr
    · exact ih (fun hm => hr (List.mem_cons_of_mem _ hm)) hinf

/-- A prefix of `r ++ y` is a prefix of `r`, or extends `r`. -/
theorem prefix_append_cases {q r y : List Char} (h : q <+: r ++ y) :
    q <+: r ∨ r <+: q := by
  by_cases hl : q.length ≤ r.length
  · have hq := List.prefix_iff_eq_take.mp h
    rw [List.take_append_eq_append_take, Nat.sub_eq_zero_of_le hl,
      List.take_zero, List.append_nil] at hq
    exact Or.inl (List.prefix_iff_eq_take.mpr hq)
  · have hl' : r.length ≤ q.length := Nat.le_of_lt (Nat.lt_of_not_le hl)
    refine Or.inr (List.prefix_iff_eq_take.mpr ?_)
    have hq := List.prefix_iff_eq_take.mp h
    calc r = (r ++ y).take r.length := by simp
    _ = ((r ++ y).take q.length).take r.length := by
          rw [List.take_take, Nat.min_eq_left hl']
    _ = q.take r.length := by rw [← hq]

/-- Tracking a prefix of the output of `str.replace` back to the input:
either it contains a replacement character, or it was copied verbatim. -/
theorem prefix_replaceAll {p r : List Char} (hr : r ≠ []) :
    ∀ (s q : List Char), q <+: replaceAll p r s →
      (∃ c ∈ q, c ∈ r) ∨ q <+: s := by
  intro s
  induction s with
  | nil =>
    intro q h
    simp only [replaceAll, replaceAllGo] at h
    exact Or.inr (List.prefix_nil.mp h ▸ List.nil_prefix)
  | cons c cs ih =>
    intro q h
    by_cases hp : p.isPrefixOf (c :: cs)
    · rw [replaceAll_cons_pos r hp] at h
      rcases prefix_append_cases h with hqr | hrq
      · match q with
        | [] => exact Or.inr List.nil_prefix
        | q0 :: qs =>
          exact Or.inl ⟨q0, (List.mem_cons_self _ _), hqr.sublist.subset (List.mem_cons_self _ _)⟩
      · match r, hr with
        | r0 :: rs, _ =>
          exact Or.inl ⟨r0, hrq.sublist.subset (List.mem_cons_self _ _), List.mem_cons_self _ _⟩
    · rw [replaceAll_cons_neg r hp] at h
      match q with
      | [] => exact Or.inr List.nil_prefix
      | q0 :: qs =>
        obtain ⟨rfl, hqs⟩ := List.cons_prefix_cons.mp h
        rcases ih qs hqs with ⟨ch, hc1, hc2⟩ | hcs
        · exact Or.inl ⟨ch, List.mem_cons_of_mem _ hc1, hc2⟩
        · exact Or.inr (List.cons_prefix_cons.mpr ⟨rfl, hcs⟩)

/-- After `s.replace(p, r)` with a nonempty replacement sharing no
character with the pattern, the pattern no longer occurs. -/
theorem not_infix_replaceAll {p r : List Char} (hp : p ≠ []) (hr : r ≠ [])
    (hd : ∀ c ∈ p, c ∉ r) :
    ∀ (n : Nat) (s : List Char), s.length ≤ n → ¬ p <:+: replaceAll p r s := by
  intro n
  induction n with
  | zero =>
    intro s hlen h
    rw [List.length_eq_zero.mp (Nat.le_zero.mp hlen)] at h
    exact hp (List.infix_nil.mp h)
  | succ n ih =>
    intro s hlen h
    match s with
    | [] => exact hp (List.infix_nil.mp h)
    | c :: cs =>
      have hcs : cs.length ≤ n := by simpa using Nat.succ_le_succ_iff.mp hlen
      by_cases hpre : p.isPrefixOf (c :: cs)
      · rw [replaceAll_cons_pos r hpre] at h
        match p, hp with
        | p0 :: ps, _ =>
          have h' := infix_append_right_of_head (q := p0 :: ps) rfl
            (hd p0 (List.mem_cons_self _ _)) h
          have hlen' : (cs.drop ((p0 :: ps).length - 1)).length ≤ n := by
            have := List.length_drop ((p0 :: ps).length - 1) cs
            omega
          exact ih _ hlen' h'
      · rw [replaceAll_cons_neg r hpre] at h
        rcases List.infix_cons_iff.mp h with hq | hinf
        · match p, hp with
          | p0 :: ps, _ =>
            obtain ⟨rfl, hps⟩ := List.cons_prefix_cons.mp hq
            rcases prefix_replaceAll hr cs ps hps with ⟨ch, hc1, hc2⟩ | hcs'
            · exact hd ch (List.mem_cons_of_mem _ hc1) hc2
            · exact hpre (List.isPrefixOf_iff_prefix.mpr
                (List.cons_prefix_cons.mpr ⟨rfl, hcs'⟩))
        · exact ih _ hcs hinf

/-- `str.replace` with a nonempty replacement sharing no character with a
word `q` cannot create a new occurrence of `q`. -/
theorem not_infix_replaceAll_other {q p r : List Char} (hq : q ≠ [])
    (hr : r ≠ []) (hd : ∀ c ∈ q, c ∉ r) :
    ∀ (n : Nat) (s : List Char), s.length ≤ n → ¬ q <:+: s →
      ¬ q <:+: replaceAll p r s := by
  intro n
  induction n with
  | zero =>
    intro s hlen hs h
    rw [List.length_eq_zero.mp (Nat.le_zero.mp hlen)] at h
    exact hq (List.infix_nil.mp h)
  | succ n ih =>
    intro s hlen hs h
    match s with
    | [] => exact hq (List.infix_nil.mp h)
    | c :: cs =>
      have hcs : cs.length ≤ n := by simpa using Nat.succ_le_succ_iff.mp hlen
      by_cases hpre : p.isPrefixOf (c :: cs)
      · rw [replaceAll_cons_pos r hpre] at h
        match q, hq with
        | q0 :: qs, _ =>
          have h' := infix_append_right_of_head (q := q0 :: qs) rfl
            (hd q0 (List.mem_cons_self _ _)) h
          have hlen' : (cs.drop (p.length - 1)).length ≤ n := by
            have := List.length_drop (p.length - 1) cs
            omega
          have hnot : ¬ (q0 :: qs) <:+: cs.drop (p.length - 1) := fun hin =>
            hs (List.infix_cons (hin.trans (List.drop_suffix _ _).isInfix))
          exact ih _ hlen' hnot h'
      · rw [replaceAll_cons_neg r hpre] at h
        rcases List.infix_cons_iff.mp h with hq' | hinf
        · match q, hq with
          | q0 :: qs, _ =>
            obtain ⟨rfl, hps⟩ := List.cons_prefix_cons.mp hq'
            rcases prefix_replaceAll hr cs qs hps with ⟨ch, hc1, hc2⟩ | hcs'
            · exact hd ch (List.mem_cons_of_mem _ hc1) hc2
            · exact hs (List.cons_prefix_cons.mpr ⟨rfl, hcs'⟩).isInfix
        · exact ih _ hcs (fun hin => hs (List.infix_cons hin)) hinf

/-! ## The substitution table: all patterns are non-ASCII, all
replacements ASCII, so later passes cannot recreate earlier patterns. -/

/-- Well-formedness of a substitution table: nonempty non-ASCII patterns,
nonempty ASCII replacements. -/
def SubsOk (l : List (List Char × List Char)) : Prop :=
  ∀ pr ∈ l, pr.1 ≠ [] ∧ pr.2 ≠ [] ∧ (∀ c ∈ pr.1, 0x80 ≤ c.toNat) ∧
    (∀ c ∈ pr.2, c.toNat < 0x80)

instance : DecidablePred SubsOk := fun l => by
  unfold SubsOk; infer_instance

theorem subsTable_ok : SubsOk subsTable := by decide

/-- A non-ASCII word absent from the input stays absent through a
well-formed substitution pass. -/
theorem applySubs_pres {q : List Char} (hq : q ≠ [])
    (hhi : ∀ c ∈ q, 0x80 ≤ c.toNat) :
    ∀ (l : List (List Char × List Char)), SubsOk l → ∀ s, ¬ q <:+: s →
      ¬ q <:+: applySubs l s := by
  intro l
  induction l with
  | nil => intro _ s hs h; exact hs h
  | cons pr rest ih =>
    intro hok s hs
    obtain ⟨-, hr, -, hlo⟩ := hok pr (List.mem_cons_self _ _)
    have hd : ∀ c ∈ q, c ∉ pr.2 := fun c hc hmem => by
      have := hhi c hc; have := hlo c hmem; omega
    exact ih (fun x hx => hok x (List.mem_cons_of_mem _ hx)) _
      (not_infix_replaceAll_other hq hr hd s.length s le_rfl hs)

/-- After a well-formed substitution pass, none of its patterns occurs. -/
theorem applySubs_elim :
    ∀ (l : List (List Char × List Char)), SubsOk l → ∀ s, ∀ pr ∈ l,
      ¬ pr.1 <:+: applySubs l s := by
  intro l
  induction l with
  | nil => intro _ s pr h; simp at h
  | cons hd rest ih =>
    intro hok s pr hmem
    obtain ⟨hp, hr, hhi, hlo⟩ := hok hd (List.mem_cons_self _ _)
    rcases List.mem_cons.mp hmem with rfl | htail
    · have hdisj : ∀ c ∈ pr.1, c ∉ pr.2 := fun c hc hm => by
        have := hhi c hc; have := hlo c hm; omega
      exact applySubs_pres hp hhi rest
        (fun x hx => hok x (List.mem_cons_of_mem _ hx)) _
        (not_infix_replaceAll hp hr hdisj _ _ le_rfl)
    · exact ih (fun x hx => hok x (List.mem_cons_of_mem _ hx)) _ pr htail

/-- A non-ASCII character absent from the input stays absent. -/
theorem applySubs_not_mem {a : Char} (ha : 0x80 ≤ a.toNat) :
    ∀ (l : List (List Char × List Char)), SubsOk l → ∀ s, a ∉ s →
      a ∉ applySubs l s := by
  intro l
  induction l with
  | nil => intro _ s hs; exact hs
  | cons pr rest ih =>
    intro hok s hs
    refine ih (fun x hx => hok x (List.mem_cons_of_mem _ hx)) _ ?_
    intro hmem
    rcases mem_replaceAll s.length s le_rfl hmem with hr | hmem'
    · obtain ⟨-, -, -, hlo⟩ := hok pr (List.mem_cons_self _ _)
      have := hlo a hr; omega
    · exact hs hmem'

/-- A substitution pass none of whose patterns occurs is the identity. -/
theorem applySubs_noop :
    ∀ (l : List (List Char × List Char)) (s : List Char),
      (∀ pr ∈ l, ¬ pr.1 <:+: s) → applySubs l s = s := by
  intro l
  induction l with
  | nil => intro s _; rfl
  | cons pr rest ih =>
    intro s h
    show applySubs rest (replaceAll pr.1 pr.2 s) = s
    rw [replaceAll_eq_of_no_occ (h pr (List.mem_cons_self _ _))]
    exact ih s fun x hx => h x (List.mem_cons_of_mem _ hx)

/-! ## NFKC model facts -/

theorem composePair_eq_none {b m : Char} (h : m ≠ '\u0301') :
    composePair b m = Option.none := by
  simp [composePair, h]

theorem composePair_quote_base (m : Char) :
    composePair '"' m = Option.none := by
  unfold composePair
  split <;> rfl

/-- The composition scan is the identity on mark-free text. -/
theorem nfkcGo_no_mark :
    ∀ (cs : List Char) (b : Char), '\u0301' ∉ cs → nfkcGo b cs = b :: cs := by
  intro cs
  induction cs with
  | nil => intro b _; rfl
  | cons m rest ih =>
    intro b h
    have hm : m ≠ '\u0301' := fun he => h (he ▸ List.mem_cons_self m rest)
    show nfkcGo b (m :: rest) = b :: m :: rest
    simp only [nfkcGo, composePair_eq_none hm]
    rw [ih m (fun hx => h (List.mem_cons_of_mem _ hx))]

theorem nfkc_no_mark {s : List Char} (h : '\u0301' ∉ s) : nfkc s = s := by
  match s with
  | [] => rfl
  | c :: cs =>
    show nfkcGo c cs = c :: cs
    exact nfkcGo_no_mark cs c (fun hx => h (List.mem_cons_of_mem _ hx))

/-- Nothing composes with a closing double quote. -/
theorem nfkcGo_snoc_quote :
    ∀ (cs : List Char) (b : Char),
      nfkcGo b (cs ++ ['"']) = nfkcGo b cs ++ ['"'] := by
  intro cs
  induction cs with
  | nil => intro b; rfl
  | cons m rest ih =>
    intro b
    show nfkcGo b (m :: (rest ++ ['"'])) = nfkcGo b (m :: rest) ++ ['"']
    simp only [nfkcGo]
    cases hc : composePair b m with
    | some c => simp only [hc]; exact ih c
    | none => simp only [hc]; rw [ih m]; rfl

theorem nfkc_snoc_quote (y : List Char) :
    nfkc (y ++ ['"']) = nfkc y ++ ['"'] := by
  match y with
  | [] => rfl
  | c :: cs => exact nfkcGo_snoc_quote cs c

/-- A double quote composes with nothing, so it passes through. -/
theorem nfkc_quote_cons (y : List Char) :
    nfkc ('"' :: y) = '"' :: nfkc y := by
  match y with
  | [] => rfl
  | c :: cs =>
    show nfkcGo '"' (c :: cs) = '"' :: nfkcGo c cs
    simp only [nfkcGo, composePair_quote_base]

theorem nfkc_quote_wrap (y : List Char) :
    nfkc ('"' :: (y ++ ['"'])) = '"' :: (nfkc y ++ ['"']) := by
  rw [nfkc_quote_cons, nfkc_snoc_quote]

/-- `normalize_code` is idempotent on sources without the combining acute
(in general it is not: deleting a soft hyphen can put the acute next to a
base letter, a pair that only the next pass's NFKC composes; see
`C8_counterexample`). -/
theorem normalizeChars_idem {s : List Char} (hs : '\u0301' ∉ s) :
    normalizeChars (normalizeChars s) = normalizeChars s := by
  have hmark : '\u0301' ∉ normalizeChars s := by
    unfold normalizeChars
    rw [nfkc_no_mark hs]
    refine applySubs_not_mem (by decide) subsTable subsTable_ok _ ?_
    intro hmem
    rcases mem_replaceAll s.length s le_rfl hmem with hr | hmem'
    · simp at hr
    · exact hs hmem'
  have hdel : '­' ∉ normalizeChars s := by
    unfold normalizeChars
    exact applySubs_not_mem (by decide) subsTable subsTable_ok _
      (not_mem_replaceAll_single (by simp) (nfkc s))
  have hsub : ∀ pr ∈ subsTable, ¬ pr.1 <:+: normalizeChars s :=
    applySubs_elim subsTable subsTable_ok _
  show applySubs subsTable (replaceAll ['­'] [] (nfkc (normalizeChars s))) =
    normalizeChars s
  rw [nfkc_no_mark hmark,
    replaceAll_eq_of_no_occ (fun h => hdel (mem_of_singleton_occ h))]
  exact applySubs_noop subsTable _ hsub

/-! ## Word-character facts used by the scanning lemmas -/

theorem word_ne {c x : Char} (h : isWordCh c) (hx : isWordCh x = false) :
    c ≠ x := fun he => by rw [he, hx] at h; exact Bool.false_ne_true h

theorem isSpaceCh_eq_false_of_word {c : Char} (h : isWordCh c) :
    isSpaceCh c = false := by
  cases hc : isSpaceCh c with
  | false => rfl
  | true =>
    exfalso
    simp only [isSpaceCh, Bool.or_eq_true, decide_eq_true_eq] at hc
    rcases hc with ((((rfl | rfl) | rfl) | rfl) | rfl) | rfl <;>
      exact absurd h (by decide)

/-- A keyword pattern `kw\b` fails on an all-word-character text it does
not exactly equal. -/
theorem matchKeyword_eq_false {kw s : List Char}
    (hw : ∀ c ∈ s, isWordCh c) (hne : kw ≠ s) :
    matchKeyword kw s = false := by
  unfold matchKeyword
  cases hp : kw.isPrefixOf s with
  | false => rfl
  | true =>
    have hpre := List.isPrefixOf_iff_prefix.mp hp
    have hlt : kw.length < s.length :=
      lt_of_le_of_ne hpre.length_le fun he => hne (hpre.eq_of_length he)
    have hdrop : s.drop kw.length ≠ [] := by
      intro h
      have := congrArg List.length h
      rw [List.length_drop] at this
      simp at this
      omega
    obtain ⟨d, ds, hds⟩ := List.exists_cons_of_ne_nil hdrop
    rw [hds]
    have hd : isWordCh d := hw d <| (List.drop_sublist _ _).subset
      (hds ▸ List.mem_cons_self _ _)
    simp [hd]

theorem tryKeywords_eq_none {L : List (List Char × String)} {s : List Char}
    (h : ∀ pr ∈ L, matchKeyword pr.1 s = false) :
    tryKeywords L s = none := by
  induction L with
  | nil => rfl
  | cons pr rest ih =>
    show tryKeywords (pr :: rest) s = none
    rw [tryKeywords, if_neg]
    · exact ih fun x hx => h x (List.mem_cons_of_mem _ hx)
    · rw [h pr (List.mem_cons_self _ _)]; exact Bool.false_ne_true

theorem tryOps_eq_none {c : Char} {cs : List Char} (hc : isWordCh c) :
    tryOps opList (c :: cs) = none := by
  have hne : ∀ x : Char, isWordCh x = false → (x == c) = false := fun x hx =>
    beq_eq_false_iff_ne.mpr fun he => word_ne hc hx he.symm
  simp [tryOps, opList, List.isPrefixOf, hne '=' (by decide),
    hne '!' (by decide), hne '>' (by decide), hne '<' (by decide),
    hne '&' (by decide), hne '|' (by decide), hne '+' (by decide),
    hne '-' (by decide), hne '*' (by decide), hne '/' (by decide)]

/-- On an all-word-character text whose head is not a digit and on which
every keyword pattern fails, the `TOKEN_REGEX` scan lands on the final
IDENTIFIER pattern and consumes the whole text. -/
theorem tryRegex_ident {c : Char} {cs : List Char} (hc : isWordCh c)
    (hw : ∀ x ∈ cs, isWordCh x)
    (hkw : ∀ pr ∈ keywordList, matchKeyword pr.1 (c :: cs) = false)
    (hd : isDigitCh c = false) :
    tryRegex (c :: cs) = some ("IDENTIFIER", c :: cs, c :: cs) := by
  have htw : cs.takeWhile isWordCh = cs := List.takeWhile_eq_self_iff.mpr hw
  have h1 : (c = '~') = False := eq_false (word_ne hc (by decide))
  have h2 : (c = '#') = False := eq_false (word_ne hc (by decide))
  have h3 : (c = '"') = False := eq_false (word_ne hc (by decide))
  have h4 : (c = '\'') = False := eq_false (word_ne hc (by decide))
  simp [tryRegex, tryRegex.afterComments, tryRegex.afterString, h1, h2, h3, h4,
    tryKeywords_eq_none hkw, tryOps_eq_none hc, hd, hc, htw]

theorem tokLoop_skip (s : List Char) (k line col : Nat) :
    tokLoop s k line col = tokLoop (s.drop k) 0 line col := by
  induction s generalizing k with
  | nil => cases k <;> rfl
  | cons c cs ih =>
    cases k with
    | zero => rfl
    | succ k => simpa [tokLoop] using ih k

theorem advanceLineCol_no_newline {text : List Char} (h : '\n' ∉ text)
    (line col : Nat) : advanceLineCol line col text = (line, col + text.length) := by
  rw [advanceLineCol]
  simp [List.count_eq_zero.mpr h]

/-- `normalize_code` is the identity on texts of word characters that
contain neither of the multi-character substitution patterns (the native
and/or words): every other pattern consists of non-word characters. -/
theorem normalizeChars_eq_self_of_words {s : List Char}
    (hw : ∀ c ∈ s, isWordCh c)
    (h1 : ¬ ['እ', 'ና'] <:+: s) (h2 : ¬ ['ወ', 'ይ', 'ም'] <:+: s) :
    normalizeChars s = s := by
  unfold normalizeChars
  rw [nfkc_no_mark (fun hm => absurd (hw _ hm) (by decide))]
  rw [replaceAll_eq_of_no_occ
    fun h => absurd (hw _ (mem_of_singleton_occ h)) (by decide)]
  apply applySubs_noop
  intro pr hpr
  fin_cases hpr <;>
    first
      | exact h1
      | exact h2
      | exact fun hin => absurd (hw _ (mem_of_singleton_occ hin)) (by decide)

theorem keywordList_shape :
    ∀ pr ∈ keywordList, pr.1 ≠ [] ∧ isDigitCh (pr.1.headD 'a') = false := by
  decide

/-- The scan of a nonempty all-word-character text that is not itself a
keyword and is untouched by normalization: one IDENTIFIER token spanning
the whole text, then EOF. -/
theorem tokenizeChars_single_identifier {s : List Char}
    (hs : s ≠ []) (hw : ∀ c ∈ s, isWordCh c)
    (hd : isDigitCh (s.headD 'a') = false)
    (hkw : ∀ pr ∈ keywordList, pr.1 ≠ s)
    (h1 : ¬ ['እ', 'ና'] <:+: s) (h2 : ¬ ['ወ', 'ይ', 'ም'] <:+: s) :
    tokenizeChars s =
      .ok [⟨"IDENTIFIER", some s, 1, 1⟩, ⟨"EOF", none, 1, s.length + 1⟩] := by
  obtain ⟨c, cs, rfl⟩ := List.exists_cons_of_ne_nil hs
  have hc : isWordCh c := hw c (List.mem_cons_self _ _)
  have hmk : ∀ pr ∈ keywordList, matchKeyword pr.1 (c :: cs) = false :=
    fun pr hpr => matchKeyword_eq_false hw (hkw pr hpr)
  have hnl : '\n' ∉ c :: cs := fun hm => absurd (hw _ hm) (by decide)
  unfold tokenizeChars
  rw [normalizeChars_eq_self_of_words hw h1 h2]
  rw [tokLoop]
  rw [if_neg (by rw [isSpaceCh_eq_false_of_word hc]; exact Bool.false_ne_true)]
  rw [tryRegex_ident hc (fun x hx => hw x (List.mem_cons_of_mem _ hx)) hmk
    (by simpa using hd)]
  show Except.map _ (tokLoop cs ((c :: cs).length - 1)
    (advanceLineCol 1 1 (c :: cs)).1 (advanceLineCol 1 1 (c :: cs)).2) = _
  rw [advanceLineCol_no_newline hnl]
  rw [tokLoop_skip]
  simp [tokLoop, Nat.add_comm, Except.map]

/-! ## Claim C5 and C8 theorems -/

/-- **C5, counterexample.**  The claim says every identifier with a keyword
as a strict prefix lexes as a single IDENTIFIER token.  The identifier
`ለእናት` (keyword `ለ` = FOR followed by the letters `እናት`) refutes it:
`normalize_code` rewrites its substring `እና` to `&&` before tokenization,
so it lexes as FOR, AND, IDENTIFIER — its token-type stream is not
IDENTIFIER-then-EOF. -/
theorem C5_counterexample :
    tokenize "ለእናት" =
      .ok [⟨"FOR", some ['ለ'], 1, 1⟩, ⟨"AND", some ['&', '&'], 1, 2⟩,
           ⟨"IDENTIFIER", some ['ት'], 1, 4⟩, ⟨"EOF", none, 1, 5⟩] ∧
    (tokenize "ለእናት").toOption.map (List.map Token.ty) ≠
      some ["IDENTIFIER", "EOF"] :=
  ⟨rfl, by decide⟩

/-- **C5, amended.**  For every identifier that has a keyword as a strict
prefix (the keyword followed by further word characters), is not itself a
keyword, and does not contain the native and/or words `እና`/`ወይም` (which
normalization rewrites), `tokenize` produces a single IDENTIFIER token
spanning the whole identifier, never the keyword token followed by a
separate identifier token. -/
theorem C5_keyword_prefix_single_identifier (kw t : List Char) (ty : String)
    (hkty : (kw, ty) ∈ keywordList) (_ht : t ≠ [])
    (hw : ∀ c ∈ kw ++ t, isWordCh c)
    (hnot : ∀ pr ∈ keywordList, pr.1 ≠ kw ++ t)
    (h1 : ¬ ['እ', 'ና'] <:+: kw ++ t) (h2 : ¬ ['ወ', 'ይ', 'ም'] <:+: kw ++ t) :
    tokenizeChars (kw ++ t) =
      .ok [⟨"IDENTIFIER", some (kw ++ t), 1, 1⟩,
           ⟨"EOF", none, 1, (kw ++ t).length + 1⟩] := by
  apply tokenizeChars_single_identifier ?_ hw ?_ hnot h1 h2
  · obtain ⟨hne, -⟩ := keywordList_shape (kw, ty) hkty
    obtain ⟨k, ks, rfl⟩ := List.exists_cons_of_ne_nil hne
    simp
  · obtain ⟨hne, hdig⟩ := keywordList_shape (kw, ty) hkty
    obtain ⟨k, ks, rfl⟩ := List.exists_cons_of_ne_nil hne
    simpa using hdig

/-- Witness for C5 (amended): the identifier `ከሆነሀ` (keyword `ከሆነ` = IF
plus the letter `ሀ`) lexes as one IDENTIFIER token. -/
theorem C5_keyword_prefix_single_identifier_witness :
    tokenizeChars ['ከ', 'ሆ', 'ነ', 'ሀ'] =
      .ok [⟨"IDENTIFIER", some ['ከ', 'ሆ', 'ነ', 'ሀ'], 1, 1⟩,
           ⟨"EOF", none, 1, 5⟩] :=
  C5_keyword_prefix_single_identifier ['ከ', 'ሆ', 'ነ'] ['ሀ'] "IF"
    (by decide) (by decide) (by decide) (by decide) (by decide) (by decide)

/-- **C8, counterexample.**  The claim says tokenizing the output of
`normalize_code` always yields the same token stream as tokenizing the
original string.  The source `e` + soft hyphen + combining acute refutes
it: the NFKC pass leaves the source unchanged (the soft hyphen sits
between the base and the mark and blocks composition), the soft-hyphen
deletion then puts the acute right after the `e`, and only the *second*
normalization — the one `tokenize` itself performs — composes the pair to
`é`.  So tokenizing the original fails with a LexerError on the stray
combining mark, while tokenizing the normalized text yields one
IDENTIFIER token `é`. -/
theorem C8_counterexample :
    tokenize "e\u00AD\u0301" =
      .error (.lexer "Unexpected character: \u0301") ∧
    tokenize (normalizeCode "e\u00AD\u0301") =
      .ok [⟨"IDENTIFIER", some ['é'], 1, 1⟩, ⟨"EOF", none, 1, 2⟩] ∧
    tokenize (normalizeCode "e\u00AD\u0301") ≠ tokenize "e\u00AD\u0301" := by
  refine ⟨rfl, rfl, fun h => ?_⟩
  have h1 : tokenize "e\u00AD\u0301" =
      .error (.lexer "Unexpected character: \u0301") := rfl
  have h2 : tokenize (normalizeCode "e\u00AD\u0301") =
      .ok [⟨"IDENTIFIER", some ['é'], 1, 1⟩, ⟨"EOF", none, 1, 2⟩] := rfl
  rw [h1, h2] at h
  exact Except.noConfusion h

/-- **C8, amended.**  On sources drawn from the language's repertoire
(`modeledChar`: ASCII, the Latin-1 letters, the Ethiopic block, the
punctuation glyphs `normalize_code` rewrites, and the soft hyphen),
tokenizing the output of `normalize_code` yields exactly the same token
stream as tokenizing the original string: with no combining mark present
the soft-hyphen deletion cannot create a new composable pair, so
normalization is idempotent and — since `tokenize` begins by normalizing —
a lexing fixed point.  On arbitrary Unicode sources the claim fails; see
`C8_counterexample`. -/
theorem C8_normalize_lex_fixed_point (s : String)
    (h : ∀ c ∈ s.data, modeledChar c) :
    tokenize (normalizeCode s) = tokenize s := by
  have hm : '\u0301' ∉ s.data := fun hmem => absurd (h _ hmem) (by decide)
  show tokLoop (normalizeChars (normalizeChars s.data)) 0 1 1 =
    tokLoop (normalizeChars s.data) 0 1 1
  rw [normalizeChars_idem hm]

/-- Witness for C8 (amended): a repertoire source exercising the soft
hyphen, native punctuation and the native and-word. -/
theorem C8_normalize_lex_fixed_point_witness :
    tokenize (normalizeCode "አ\u00ADለ።እና“ab”") = tokenize "አ\u00ADለ።እና“ab”" :=
  C8_normalize_lex_fixed_point _ (by decide)

/-! ## String literals see normalized text (C10) -/

theorem replaceAll_cons_ne {p r : List Char} {c : Char}
    (hp : p.headD c ≠ c) (x : List Char) :
    replaceAll p r (c :: x) = c :: replaceAll p r x := by
  match p, hp with
  | [], hp => exact absurd rfl hp
  | p0 :: ps, hp =>
    refine replaceAll_cons_neg r fun h => ?_
    have := List.isPrefixOf_iff_prefix.mp h
    exact hp (List.cons_prefix_cons.mp this).1

theorem prefix_snoc {p y : List Char} {c : Char} (hc : c ∉ p)
    (h : p <+: y ++ [c]) : p <+: y := by
  by_cases hl : p.length ≤ y.length
  · have hq := List.prefix_iff_eq_take.mp h
    rw [List.take_append_eq_append_take, Nat.sub_eq_zero_of_le hl,
      List.take_zero, List.append_nil] at hq
    exact List.prefix_iff_eq_take.mpr hq
  · exfalso
    have hlen := h.length_le
    rw [List.length_append, List.length_singleton] at hlen
    have heq : p.length = y.length + 1 := by omega
    have hthis := List.prefix_iff_eq_take.mp h
    have hfull : List.take (y.length + 1) (y ++ [c]) = y ++ [c] :=
      List.take_of_length_le (by simp)
    rw [heq, hfull] at hthis
    exact hc (hthis ▸ List.mem_append_right y (List.mem_cons_self _ _))

theorem replaceAll_single_ne {p r : List Char} {c : Char} (hp : p ≠ [])
    (hc : c ∉ p) : replaceAll p r [c] = [c] := by
  match p, hp with
  | p0 :: ps, _ =>
    have hne : ¬ (p0 :: ps).isPrefixOf [c] := fun h => by
      have := (List.cons_prefix_cons.mp (List.isPrefixOf_iff_prefix.mp h)).1
      exact hc (this ▸ List.mem_cons_self _ _)
    rw [replaceAll_cons_neg r hne]
    rfl

theorem replaceAll_snoc {p r : List Char} {c : Char} (hp : p ≠ [])
    (hc : c ∉ p) :
    ∀ (n : Nat) (x : List Char), x.length ≤ n →
      replaceAll p r (x ++ [c]) = replaceAll p r x ++ [c] := by
  intro n
  induction n with
  | zero =>
    intro x hlen
    rw [List.length_eq_zero.mp (Nat.le_zero.mp hlen)]
    show replaceAll p r [c] = replaceAll p r [] ++ [c]
    rw [replaceAll_single_ne hp hc]
    rfl
  | succ n ih =>
    intro x hlen
    match x with
    | [] =>
      show replaceAll p r [c] = replaceAll p r [] ++ [c]
      rw [replaceAll_single_ne hp hc]
      rfl
    | d :: ds =>
      have hds : ds.length ≤ n := by simpa using Nat.succ_le_succ_iff.mp hlen
      by_cases hpre : p.isPrefixOf (d :: ds)
      · have hpre' : p.isPrefixOf (d :: (ds ++ [c])) := by
          apply List.isPrefixOf_iff_prefix.mpr
          exact (List.isPrefixOf_iff_prefix.mp hpre).trans
            (List.prefix_append (d :: ds) [c])
        have hplen : p.length - 1 ≤ ds.length := by
          have := (List.isPrefixOf_iff_prefix.mp hpre).length_le
          simp at this
          omega
        show replaceAll p r (d :: (ds ++ [c])) = _
        rw [replaceAll_cons_pos r hpre', replaceAll_cons_pos r hpre]
        rw [List.drop_append_of_le_length hplen]
        have hdlen : (ds.drop (p.length - 1)).length ≤ n := by
          rw [List.length_drop]; omega
        rw [ih _ hdlen]
        simp
      · have hpre' : ¬ p.isPrefixOf (d :: (ds ++ [c])) := fun h => by
          have h2 : p <+: (d :: ds) ++ [c] := by
            simpa using List.isPrefixOf_iff_prefix.mp h
          exact hpre (List.isPrefixOf_iff_prefix.mpr (prefix_snoc hc h2))
        show replaceAll p r (d :: (ds ++ [c])) = _
        rw [replaceAll_cons_neg r hpre', replaceAll_cons_neg r hpre,
          ih ds hds]
        rfl

/-- A substitution pass whose patterns avoid the double quote distributes
over a quote-wrapped text. -/
theorem applySubs_quote_wrap :
    ∀ (l : List (List Char × List Char)),
      (∀ pr ∈ l, pr.1 ≠ [] ∧ '"' ∉ pr.1) →
      ∀ y, applySubs l ('"' :: (y ++ ['"'])) =
        '"' :: (applySubs l y ++ ['"']) := by
  intro l
  induction l with
  | nil => intro _ y; rfl
  | cons pr rest ih =>
    intro h y
    obtain ⟨hp, hq⟩ := h pr (List.mem_cons_self _ _)
    have hhd : pr.1.headD '"' ≠ '"' := by
      match pr, hp with
      | (p0 :: ps, r), _ =>
        exact fun he => hq (he ▸ List.mem_cons_self _ _)
    show applySubs rest (replaceAll pr.1 pr.2 ('"' :: (y ++ ['"']))) =
      '"' :: (applySubs rest (replaceAll pr.1 pr.2 y) ++ ['"'])
    rw [replaceAll_cons_ne hhd, replaceAll_snoc hp hq y.length y le_rfl]
    exact ih (fun x hx => h x (List.mem_cons_of_mem _ hx)) (replaceAll pr.1 pr.2 y)

/-- `normalize_code` of a double-quoted literal normalizes the inside and
keeps the quotes: no substitution pattern contains a double quote. -/
theorem normalizeChars_quote_wrap (w : List Char) :
    normalizeChars ('"' :: (w ++ ['"'])) =
      '"' :: (normalizeChars w ++ ['"']) := by
  unfold normalizeChars
  rw [nfkc_quote_wrap]
  rw [replaceAll_cons_ne (by decide),
    replaceAll_snoc (by decide) (by decide) (nfkc w).length (nfkc w) le_rfl]
  exact applySubs_quote_wrap subsTable (by decide) _

/-- The lazy string-content scan stops at the closing quote. -/
theorem strContent_closed {q : Char} {w : List Char} (hq : q ∉ w)
    (hn : '\n' ∉ w) : strContent q (w ++ [q]) = some w := by
  induction w with
  | nil => simp [strContent]
  | cons c cs ih =>
    have hcq : ¬ c = q := fun he => hq (he ▸ List.mem_cons_self _ _)
    have hcn : ¬ c = '\n' := fun he => hn (he ▸ List.mem_cons_self _ _)
    show strContent q (c :: (cs ++ [q])) = _
    rw [strContent, if_neg hcq, if_neg hcn,
      ih (fun h => hq (List.mem_cons_of_mem _ h))
         (fun h => hn (List.mem_cons_of_mem _ h))]
    rfl

theorem matchKeyword_head_ne {kw : List Char} {c : Char}
    (h : kw.headD c ≠ c) (rest : List Char) :
    matchKeyword kw (c :: rest) = false := by
  match kw, h with
  | k0 :: ks, h =>
    unfold matchKeyword
    have : ¬ (k0 :: ks).isPrefixOf (c :: rest) := fun hp =>
      h (List.cons_prefix_cons.mp (List.isPrefixOf_iff_prefix.mp hp)).1
    simp only [Bool.and_eq_false_iff]
    exact Or.inl (Bool.eq_false_iff.mpr this)

theorem tryOps_head_ne {L : List (List Char × String)} {c : Char}
    (h : ∀ pr ∈ L, pr.1.headD c ≠ c) (rest : List Char) :
    tryOps L (c :: rest) = none := by
  induction L with
  | nil => rfl
  | cons pr rst ih =>
    have hhd := h pr (List.mem_cons_self _ _)
    match pr, hhd with
    | (p0 :: ps, ty), hhd =>
      show tryOps ((p0 :: ps, ty) :: rst) (c :: rest) = none
      rw [tryOps, if_neg]
      · exact ih fun x hx => h x (List.mem_cons_of_mem _ hx)
      · intro hp
        exact hhd (List.cons_prefix_cons.mp (List.isPrefixOf_iff_prefix.mp hp)).1

set_option maxHeartbeats 1000000 in
/-- **C10.**  Normalization runs on the raw source text before any token
boundary is known, so it also rewrites the inside of string literals: for
every double-quoted literal (whose normalized content contains no quote
and no newline, so it scans as one string), the STRING token's literal
value is the *normalized* text between the quotes — a native sentence
terminator inside the quotes becomes `;`, the native and-word becomes
`&&` — not the original source characters.  The content is restricted to
the repertoire on which the NFKC model is exact (`modeledChar`); there
the NFKC pass is the identity and the rewriting is exactly the
soft-hyphen deletion plus the substitution table. -/
theorem C10_string_token_normalized {w : List Char}
    (_hrep : ∀ c ∈ w, modeledChar c)
    (hq : '"' ∉ normalizeChars w) (hn : '\n' ∉ normalizeChars w) :
    tokenizeChars ('"' :: (w ++ ['"'])) =
      .ok [⟨"STRING", some (normalizeChars w), 1, 1⟩,
           ⟨"EOF", none, 1, (normalizeChars w).length + 3⟩] := by
  unfold tokenizeChars
  rw [normalizeChars_quote_wrap]
  rw [tokLoop]
  rw [if_neg (by decide)]
  have hreg : tryRegex ('"' :: (normalizeChars w ++ ['"'])) =
      some ("STRING", '"' :: (normalizeChars w ++ ['"']),  normalizeChars w) := by
    rw [tryRegex]
    rw [if_neg (by simp)]
    rw [tryRegex.afterComments, if_neg (by simp)]
    rw [tryKeywords_eq_none (by
      intro pr hpr
      exact matchKeyword_head_ne (by fin_cases hpr <;> decide) _)]
    rw [if_neg (by simp [isDigitCh])]
    rw [tryOps_head_ne (by intro pr hpr; fin_cases hpr <;> decide)]
    rw [tryRegex.afterString, if_pos (by simp)]
    rw [strContent_closed hq hn]
  rw [hreg]
  have hnl : '\n' ∉ '"' :: (normalizeChars w ++ ['"']) := by
    intro hm
    rcases List.mem_cons.mp hm with h | h
    · exact absurd h.symm (by decide)
    · rcases List.mem_append.mp h with h | h
      · exact hn h
      · exact absurd (List.mem_singleton.mp h).symm (by decide)
  show Except.map _ (tokLoop (normalizeChars w ++ ['"'])
    (('"' :: (normalizeChars w ++ ['"'])).length - 1)
    (advanceLineCol 1 1 ('"' :: (normalizeChars w ++ ['"']))).1
    (advanceLineCol 1 1 ('"' :: (normalizeChars w ++ ['"']))).2) = _
  rw [advanceLineCol_no_newline hnl]
  rw [tokLoop_skip]
  have hdrop : (normalizeChars w ++ ['"']).drop
      (('"' :: (normalizeChars w ++ ['"'])).length - 1) = [] := by
    apply List.drop_eq_nil_of_le
    simp
  rw [hdrop]
  simp [tokLoop, Except.map]
  omega

/-- Witness for C10: the literal `"ሀ።እና"` lexes as a STRING token whose
value is the normalized `ሀ;&&`, not the source characters `ሀ።እና`. -/
theorem C10_string_token_normalized_witness :
    tokenizeChars ('"' :: (['ሀ', '።', 'እ', 'ና'] ++ ['"'])) =
      .ok [⟨"STRING", some ['ሀ', ';', '&', '&'], 1, 1⟩,
           ⟨"EOF", none, 1, 7⟩] ∧
    normalizeChars ['ሀ', '።', 'እ', 'ና'] ≠ ['ሀ', '።', 'እ', 'ና'] := by
  refine ⟨?_, by decide⟩
  exact C10_string_token_normalized (w := ['ሀ', '።', 'እ', 'ና'])
    (by decide) (by decide) (by decide)

/-! ## The AST (node.py) -/

/-- Modelled from the spec: `node.py` is not among the provided sources; a
`FunctionCall`'s `name` field is either a plain identifier string or a
`ModuleAccess` node (spec §3), which this sum captures. -/
inductive Callee where
  | name (s : String)
  | moduleAccess (module_name member_name : String)
  deriving Repr, DecidableEq

/-- Modelled from the spec: the AST node classes of `node.py`, which is not
among the provided sources; the variants and their fields are exactly those
that `evaluator.py`, `executor.py` and the parser fragments construct and
read (spec §3: Literal, Variable, list literal/index, BinaryOp, Input,
FunctionCall, ModuleAccess, ClassCall, Assign, ListAssign,
ListElementAssign, Print, Conditional with at most one else-if, WhileLoop,
ForLoop, FunctionDef, Import).  `ListAssign` doubles as the list literal
when its `name` is `None`; `AssignListElement` carries the fields of its
`list_access` node (`list_access.name`, `list_access.index`) flattened;
the `end` bound of `ForLoop` is spelled `stop` (`end` is reserved). -/
inductive Node where
  | Number (value : Rat)
  | Str (value : String)
  | Variable (name : String)
  | ListAssign (name : Option String) (values : List Node)
  | ListAccessPos (name : String) (index : Node)
  | BinOp (op : String) (left right : Node)
  | Input (prompt : Option String)
  | FunctionCall (name : Callee) (args : List Node)
  | ClassCall (name : String) (functionName : List Node)
  | ModuleAccess (module_name member_name : String)
  | Assign (name : String) (value : Node)
  | AssignListElement (listName : String) (index : Node) (value : Node)
  | Print (expr : Node)
  | Conditionals (condition : Node) (body : List Node)
      (elseif_condition : Option Node) (elseif_body : List Node)
      (else_body : Option (List Node))
  | WhileLoop (condition : Node) (body : List Node)
  | ForLoop (var : String) (start stop : Node) (body : List Node)
  | Functions (name : String) (params : List String) (body : List Node)
  | ImportStatement (path : String) (aliasName : Option String)
  deriving Repr

mutual
/-- Structural equality on AST nodes (the stand-in for Python's identity
comparison of node objects). -/
def nodeBEq : Node → Node → Bool
  | .Number a, .Number b => a = b
  | .Str a, .Str b => a = b
  | .Variable a, .Variable b => a = b
  | .ListAssign n1 v1, .ListAssign n2 v2 => n1 = n2 && nodeListBEq v1 v2
  | .ListAccessPos n1 i1, .ListAccessPos n2 i2 => n1 = n2 && nodeBEq i1 i2
  | .BinOp o1 l1 r1, .BinOp o2 l2 r2 => o1 = o2 && nodeBEq l1 l2 && nodeBEq r1 r2
  | .Input p1, .Input p2 => p1 = p2
  | .FunctionCall c1 a1, .FunctionCall c2 a2 => c1 = c2 && nodeListBEq a1 a2
  | .ClassCall n1 f1, .ClassCall n2 f2 => n1 = n2 && nodeListBEq f1 f2
  | .ModuleAccess m1 x1, .ModuleAccess m2 x2 => m1 = m2 && x1 = x2
  | .Assign n1 v1, .Assign n2 v2 => n1 = n2 && nodeBEq v1 v2
  | .AssignListElement n1 i1 v1, .AssignListElement n2 i2 v2 =>
      n1 = n2 && nodeBEq i1 i2 && nodeBEq v1 v2
  | .Print e1, .Print e2 => nodeBEq e1 e2
  | .Conditionals c1 b1 ec1 eb1 el1, .Conditionals c2 b2 ec2 eb2 el2 =>
      nodeBEq c1 c2 && nodeListBEq b1 b2 && nodeOptBEq ec1 ec2 &&
        nodeListBEq eb1 eb2 && nodeOptListBEq el1 el2
  | .WhileLoop c1 b1, .WhileLoop c2 b2 => nodeBEq c1 c2 && nodeListBEq b1 b2
  | .ForLoop v1 s1 e1 b1, .ForLoop v2 s2 e2 b2 =>
      v1 = v2 && nodeBEq s1 s2 && nodeBEq e1 e2 && nodeListBEq b1 b2
  | .Functions n1 p1 b1, .Functions n2 p2 b2 =>
      n1 = n2 && p1 = p2 && nodeListBEq b1 b2
  | .ImportStatement p1 a1, .ImportStatement p2 a2 => p1 = p2 && a1 = a2
  | _, _ => false

def nodeListBEq : List Node → List Node → Bool
  | [], [] => true
  | a :: as', b :: bs => nodeBEq a b && nodeListBEq as' bs
  | _, _ => false

def nodeOptBEq : Option Node → Option Node → Bool
  | Option.none, Option.none => true
  | some a, some b => nodeBEq a b
  | _, _ => false

def nodeOptListBEq : Option (List Node) → Option (List Node) → Bool
  | Option.none, Option.none => true
  | some a, some b => nodeListBEq a b
  | _, _ => false
end

/-! ## Runtime values -/

/-- A runtime value: Python numbers (int/float, modelled exactly by `Rat`),
strings, booleans, lists, `None`, a user `Functions` AST node used as a
value, a `BuiltinFunction(fn, arity)` object (its host behaviour lives in
the context, keyed by `id`), and a builtin namespace dict. -/
inductive Value where
  | num (q : Rat)
  | str (s : String)
  | bool (b : Bool)
  | list (elems : List Value)
  | none
  | func (f : Node)
  | builtin (arity : Option Nat) (id : String)
  | module (entries : List (String × Value))
  deriving Repr

/-! ## Python dicts as insertion-ordered association lists -/

/-- Dict lookup. -/
def dlookup {α β : Type} [DecidableEq α] : List (α × β) → α → Option β
  | [], _ => Option.none
  | (k, v) :: rest, key => if k = key then some v else dlookup rest key

/-- Dict assignment: overwrite in place, else append. -/
def dinsert {α β : Type} [DecidableEq α] : List (α × β) → α → β → List (α × β)
  | [], k, v => [(k, v)]
  | (k', v') :: rest, k, v =>
      if k' = k then (k', v) :: rest else (k', v') :: dinsert rest k v

/-- `{**a, **b}`: `a` updated by every binding of `b` in order. -/
def dmerge {α β : Type} [DecidableEq α] (a b : List (α × β)) : List (α × β) :=
  b.foldl (fun acc kv => dinsert acc kv.1 kv.2) a

/-! ## The builtin registry (runtime/builtins.py)

Only the shape (names, arities) matters to the core; each function's host
behaviour is abstract, supplied by the context under its `id`. -/

def mathFns : List (String × Value) :=
  [ ("abs", .builtin (some 1) "abs"), ("round", .builtin (some 2) "round")
  , ("sqrt", .builtin (some 1) "sqrt"), ("pow", .builtin (some 2) "pow")
  , ("max", .builtin Option.none "max"), ("min", .builtin Option.none "min")
  , ("randint", .builtin (some 2) "randint")
  , ("sin", .builtin (some 1) "sin"), ("cos", .builtin (some 1) "cos")
  , ("tan", .builtin (some 1) "tan"), ("asin", .builtin (some 1) "asin")
  , ("acos", .builtin (some 1) "acos"), ("atan", .builtin (some 1) "atan") ]

def textFns : List (String × Value) :=
  [ ("ርዝመት", .builtin (some 1) "len"), ("ተካ", .builtin (some 3) "replace")
  , ("ክፈል", .builtin (some 2) "split") ]

def listFns : List (String × Value) :=
  [ ("ጨምር", .builtin (some 2) "append") ]

def fileFns : List (String × Value) :=
  [ ("ክፈት", .builtin (some 2) "open"), ("አንብብ", .builtin (some 1) "read")
  , ("ጻፍ", .builtin (some 2) "write"), ("ዝጋ", .builtin (some 1) "close") ]

def netFns : List (String × Value) :=
  [ ("አግኝ", .builtin (some 2) "get") ]

/-- The top-level `builtins` dict, in insertion order. -/
def builtins : List (String × Value) :=
  [ ("ሂሳብ", .module mathFns), ("ጽሁፍ", .module textFns)
  , ("ዝርዝር", .module listFns), ("ፋይል", .module fileFns)
  , ("ኢንተርኔት", .module netFns)
  , ("ወደጽሁፍ", .builtin (some 1) "str")
  , ("ወደቁጥር", .builtin (some 1) "int")
  , ("ወደነጥብቁጥር", .builtin (some 1) "float") ]

/-! ## Host value semantics -/

/-- Python truthiness (`bool(v)`): zero, empty string/list/dict, `None`
and `False` are falsy; everything else is truthy. -/
def truthy : Value → Bool
  | .num q => decide (q ≠ 0)
  | .str s => decide (s ≠ "")
  | .bool b => b
  | .list l => !l.isEmpty
  | .none => false
  | .func _ => true
  | .builtin _ _ => true
  | .module d => !d.isEmpty

/-- Numeric view of a value: Python `bool` is an `int` subclass. -/
def asNum : Value → Option Rat
  | .num q => some q
  | .bool b => some (if b then 1 else 0)
  | _ => Option.none

/-- Integral view (for `range` bounds, indexing and repetition). -/
def asInt : Value → Option Int
  | .num q => if q.den = 1 then some q.num else Option.none
  | .bool b => some (if b then 1 else 0)
  | _ => Option.none

mutual
/-- Python `==`: numeric cross-type equality (`True == 1`), elementwise on
lists, `False` across unrelated types, never an error.  (Python compares
function/builtin objects by identity; structural equality of the stored
data stands in for it.) -/
def pyEq : Value → Value → Bool
  | a, b =>
    match asNum a, asNum b with
    | some x, some y => decide (x = y)
    | _, _ =>
      match a, b with
      | .str s, .str t => s = t
      | .list l, .list m => pyEqList l m
      | .none, .none => true
      | .func f, .func g => nodeBEq f g
      | .builtin a1 i1, .builtin a2 i2 => a1 = a2 && i1 = i2
      | .module d1, .module d2 => pyEqDict d1 d2
      | _, _ => false

/-- Elementwise `==` on lists. -/
def pyEqList : List Value → List Value → Bool
  | [], [] => true
  | a :: as', b :: bs => pyEq a b && pyEqList as' bs
  | _, _ => false

/-- `==` on dict entries. -/
def pyEqDict : List (String × Value) → List (String × Value) → Bool
  | [], [] => true
  | (k1, v1) :: d1, (k2, v2) :: d2 => k1 = k2 && pyEq v1 v2 && pyEqDict d1 d2
  | _, _ => false
end

mutual
/-- Python `<`: numbers (with bool coercion), strings lexicographically,
lists lexicographically; everything else a host `TypeError`. -/
def pyLt : Value → Value → Except Err Bool
  | a, b =>
    match asNum a, asNum b with
    | some x, some y => .ok (decide (x < y))
    | _, _ =>
      match a, b with
      | .str s, .str t => .ok (decide (s < t))
      | .list l, .list m => pyLtList l m
      | _, _ => .error (.host "TypeError: unsupported comparison")

def pyLtList : List Value → List Value → Except Err Bool
  | [], [] => .ok false
  | [], _ :: _ => .ok true
  | _ :: _, [] => .ok false
  | a :: as', b :: bs =>
      if pyEq a b then pyLtList as' bs else pyLt a b
end

/-- Python `<=` on the supported types: `a <= b ↔ a < b ∨ a == b`. -/
def pyLe (a b : Value) : Except Err Bool :=
  match pyLt a b with
  | .ok lt => .ok (lt || pyEq a b)
  | .error e => .error e

/-- Python `+`. -/
def pyAdd (a b : Value) : Except Err Value :=
  match asNum a, asNum b with
  | some x, some y => .ok (.num (x + y))
  | _, _ =>
    match a, b with
    | .str s, .str t => .ok (.str (s ++ t))
    | .list l, .list m => .ok (.list (l ++ m))
    | _, _ => .error (.host "TypeError: unsupported operand types for +")

/-- Python `-`. -/
def pySub (a b : Value) : Except Err Value :=
  match asNum a, asNum b with
  | some x, some y => .ok (.num (x - y))
  | _, _ => .error (.host "TypeError: unsupported operand types for -")

/-- Python `*`: numbers, or sequence repetition by an integer. -/
def pyMul (a b : Value) : Except Err Value :=
  match asNum a, asNum b with
  | some x, some y => .ok (.num (x * y))
  | _, _ =>
    match a, b with
    | .str s, v | v, .str s =>
      match asInt v with
      | some k => .ok (.str (String.join (List.replicate k.toNat s)))
      | Option.none => .error (.host "TypeError: unsupported operand types for *")
    | .list l, v | v, .list l =>
      match asInt v with
      | some k => .ok (.list (List.flatten (List.replicate k.toNat l)))
      | Option.none => .error (.host "TypeError: unsupported operand types for *")
    | _, _ => .error (.host "TypeError: unsupported operand types for *")

/-- Python `/` (true division; exact on the `Rat` model). -/
def pyDiv (a b : Value) : Except Err Value :=
  match asNum a, asNum b with
  | some x, some y =>
      if y = 0 then .error (.host "ZeroDivisionError: division by zero")
      else .ok (.num (x / y))
  | _, _ => .error (.host "TypeError: unsupported operand types for /")

/-- The whole `BinOp` dispatch of `evaluate` after both operands have been
evaluated, in source order; `&&`/`||` are Python's `and`/`or` on the two
already-computed values, and an unrecognized operator is the
`InterpreterError` of evaluator.py line 65. -/
def binApply (op : String) (left right : Value) : Except Err Value :=
  if op = "+" then pyAdd left right
  else if op = "-" then pySub left right
  else if op = "*" then pyMul left right
  else if op = "/" then pyDiv left right
  else if op = ">" then (pyLt right left).map .bool
  else if op = "<" then (pyLt left right).map .bool
  else if op = ">=" then (pyLe right left).map .bool
  else if op = "<=" then (pyLe left right).map .bool
  else if op = "==" then .ok (.bool (pyEq left right))
  else if op = "!=" then .ok (.bool (!pyEq left right))
  else if op = "&&" then .ok (if truthy left then right else left)
  else if op = "||" then .ok (if truthy left then left else right)
  else .error (.interp s!"ያልታወቀ ምልክት -> '{op}'")

/-- Python subscript `x[i]`: list/str with integral (possibly negative)
index, dict with string key; anything else a host error. -/
def pyIndex (x idx : Value) : Except Err Value :=
  match x with
  | .list l =>
      match asInt idx with
      | some i =>
          let j := if i < 0 then i + l.length else i
          if j < 0 then .error (.host "IndexError: list index out of range")
          else
            match l.get? j.toNat with
            | some v => .ok v
            | Option.none => .error (.host "IndexError: list index out of range")
      | Option.none => .error (.host "TypeError: list indices must be integers")
  | .str s =>
      match asInt idx with
      | some i =>
          let j := if i < 0 then i + s.length else i
          if j < 0 then .error (.host "IndexError: string index out of range")
          else
            match s.data.get? j.toNat with
            | some c => .ok (.str ⟨[c]⟩)
            | Option.none => .error (.host "IndexError: string index out of range")
      | Option.none => .error (.host "TypeError: string indices must be integers")
  | .module d =>
      match idx with
      | .str k =>
          match dlookup d k with
          | some v => .ok v
          | Option.none => .error (.host "KeyError")
      | _ => .error (.host "KeyError")
  | _ => .error (.host "TypeError: object is not subscriptable")

/-- Python subscript assignment `x[i] = v` (lists mutate; the updated
value is returned to be stored back, observationally equivalent for
unaliased values). -/
def pySetIndex (x idx v : Value) : Except Err Value :=
  match x with
  | .list l =>
      match asInt idx with
      | some i =>
          let j := if i < 0 then i + l.length else i
          if j < 0 then .error (.host "IndexError: list assignment index out of range")
          else if j.toNat < l.length then .ok (.list (l.set j.toNat v))
          else .error (.host "IndexError: list assignment index out of range")
      | Option.none => .error (.host "TypeError: list indices must be integers")
  | .module d =>
      match idx with
      | .str k => .ok (.module (dinsert d k v))
      | _ => .error (.host "TypeError: unhashable key")
  | _ => .error (.host "TypeError: object does not support item assignment")

/-! ## Environment state and interpretation context -/

/-- The module-global mutable state of `interpreter/env.py` (four dicts),
made explicit, together with the process streams: values printed so far
(`output`, which also receives `input()` prompts) and the pending stdin
lines (`inputs`).  `memory` keys are `Option String` because executing a
bare list literal as a statement stores under the Python key `None`
(executor.py line 16 with `stmt.name is None`).  `classes` maps a class
name to its body statement list. -/
structure St where
  memory    : List (Option String × Value)
  functions : List (String × Node)
  modules   : List (String × List (String × Value))
  classes   : List (String × List Node)
  output    : List Value
  inputs    : List String
  deriving Repr

/-- External collaborators of the interpreter: the parser composition
(`parser/__init__.py`, not among the provided sources — used only by
imports), the file system, and the host behaviour of each builtin
function, keyed by `id`. -/
structure Ctx where
  parse : List Token → Except Err (List Node)
  fs    : String → Option String
  bimpl : String → List Value → Except Err Value

/-- `BuiltinFunction.call`: check arity if declared, run the host function,
let an `InterpreterError` through and wrap any other failure
(runtime/builtins.py lines 9–18). -/
def builtinCall (ctx : Ctx) (arity : Option Nat) (id : String)
    (args : List Value) : Except Err Value :=
  let run : Except Err Value :=
    match ctx.bimpl id args with
    | .ok v => .ok v
    | .error (.interp m) => .error (.interp m)
    | .error _ => .error (.interp "Runtime error in builtin function")
  match arity with
  | some a =>
      if args.length = a then run
      else .error (.interp "Wrong number of arguments")
  | Option.none => run

/-- Display of a callee in the not-callable error message:
`getattr(node.name, 'name', node.name)` is the name itself for a plain
callee and the host repr of the node for a `ModuleAccess` (the memory
address of the repr is elided). -/
def calleeDisplay : Callee → String
  | .name s => s
  | .moduleAccess m x => s!"<ModuleAccess {m}.{x}>"

/-- The class-member scan of the evaluator's `ModuleAccess` branch: the
first `Functions` node of the class body with the requested name. -/
def findClassMember : List Node → String → Option Node
  | [], _ => Option.none
  | .Functions n p b :: rest, x =>
      if n = x then some (.Functions n p b) else findClassMember rest x
  | _ :: rest, x => findClassMember rest x

/-- The imported-module scan of the executor's `FunctionCall` branch: the
first module (in insertion order) whose dict maps the name to a user
`Functions` node. -/
def findModuleFunction : List (String × List (String × Value)) → String → Option Node
  | [], _ => Option.none
  | (_, md) :: rest, s =>
      match dlookup md s with
      | some (.func (.Functions n p b)) => some (.Functions n p b)
      | _ => findModuleFunction rest s

/-- `path.split(".")[0]`: the characters before the first dot (the whole
path when it has no dot). -/
def stemOf (path : String) : String :=
  ⟨path.data.takeWhile (· ≠ '.')⟩

/-! ## The tree-walking interpreter

`evaluate` is evaluator.py's `evaluate`; `execute` is executor.py's
`execute`; the list/loop helpers are its inline `for` loops.  Every
function returns the error or result *together with* the state at that
moment — a Python exception does not roll back `env` — and takes a fuel
bound on the host call depth (`Err.fuel` never arises for enough fuel). -/

mutual

def evaluate (ctx : Ctx) : Nat → Node → St → Except Err Value × St
  | 0, _, st => (.error .fuel, st)
  | fuel + 1, node, st =>
    match node with
    | .Number v => (.ok (.num v), st)
    | .Str s => (.ok (.str s), st)
    | .Variable name =>
        match dlookup st.memory (some name) with
        | some v => (.ok v, st)
        | Option.none =>
          match dlookup builtins name with
          | some v => (.ok v, st)
          | Option.none => (.error (.interp s!"ያልታወቀ መለያ ስም -> \'{name}\'"), st)
    | .ListAssign Option.none values =>
        match evalList ctx fuel values st with
        | (.ok vs, st1) => (.ok (.list vs), st1)
        | (.error e, st1) => (.error e, st1)
    | .ListAccessPos name index =>
        match dlookup st.memory (some name) with
        | Option.none => (.error (.interp s!"ያልታወቀ የዝርዝር መለያ ስም \'{name}\'"), st)
        | some lst =>
          match evaluate ctx fuel index st with
          | (.ok idx, st1) => (pyIndex lst idx, st1)
          | (.error e, st1) => (.error e, st1)
    | .BinOp op l r =>
        match evaluate ctx fuel l st with
        | (.error e, st1) => (.error e, st1)
        | (.ok left, st1) =>
          match evaluate ctx fuel r st1 with
          | (.error e, st2) => (.error e, st2)
          | (.ok right, st2) => (binApply op left right, st2)
    | .Input prompt =>
        let st1 := match prompt with
          | some p => { st with output := st.output ++ [Value.str p] }
          | Option.none => st
        match st1.inputs with
        | [] => (.error (.host "EOFError"), st1)
        | line :: rest => (.ok (.str line), { st1 with inputs := rest })
    | .FunctionCall callee args =>
        let fres : Except Err Value × St :=
          match callee with
          | .moduleAccess m x => evaluate ctx fuel (.ModuleAccess m x) st
          | .name s => evaluate ctx fuel (.Variable s) st
        match fres with
        | (.error e, st1) => (.error e, st1)
        | (.ok func, st1) =>
          match evalList ctx fuel args st1 with
          | (.error e, st2) => (.error e, st2)
          | (.ok argv, st2) =>
            match func with
            | .builtin arity id => (builtinCall ctx arity id argv, st2)
            | .func (.Functions fname params body) =>
                if argv.length != params.length then
                  (.error (.interp s!"ተግባር \'{fname}\' {params.length} ፓራሜተሮችን ጠብቆ ነበር ግን {argv.length} አገኘ።"), st2)
                else
                  let oldMemory := st2.memory
                  let merged := dmerge st2.memory
                    ((params.zip argv).map fun pv => (some pv.1, pv.2))
                  match execList ctx fuel body { st2 with memory := merged } with
                  | (.ok _, st3) => (.ok .none, { st3 with memory := oldMemory })
                  | (.error e, st3) => (.error e, st3)
            | _ => (.error (.interp s!"\'{calleeDisplay callee}\' እንደ ተግባር ተጠሪ አይደለም።"), st2)
    | .ClassCall name fns =>
        match evaluate ctx fuel (.Variable name) st with
        | (.error e, st1) => (.error e, st1)
        | (.ok classname, st1) =>
          match evalList ctx fuel fns st1 with
          | (.error e, st2) => (.error e, st2)
          | (.ok argv, st2) =>
            match classname with
            | .builtin arity id => (builtinCall ctx arity id argv, st2)
            | _ => (.ok .none, st2)
    | .ModuleAccess m x =>
        match dlookup builtins m with
        | some (.module md) =>
            match dlookup md x with
            | some v => (.ok v, st)
            | Option.none =>
                (.error (.interp s!"Module \'{m}\' -> \'{x}\' ሚባል አባል የለውም።"), st)
        | _ =>
          match dlookup st.modules m with
          | some md =>
            match dlookup md x with
            | some v => (.ok v, st)
            | Option.none =>
                (.error (.interp s!"Module \'{m}\' -> \'{x}\' ሚባል አባል የለውም።"), st)
          | Option.none =>
            match dlookup st.classes m with
            | some body =>
                match findClassMember body x with
                | some f => (.ok (.func f), st)
                | Option.none =>
                    (.error (.interp s!"ክፍል \'{m}\' -> \'{x}\' ሚባል አባል የለውም።"), st)
            | Option.none =>
                (.error (.interp s!"Module ወይም ክፍል \'{m}\' የሚባል የለም"), st)
    | _ => (.error (.interp "Cannot evaluate node"), st)
  termination_by structural fuel _ _ => fuel

def evalList (ctx : Ctx) : Nat → List Node → St → Except Err (List Value) × St
  | 0, _, st => (.error .fuel, st)
  | _ + 1, [], st => (.ok [], st)
  | fuel + 1, n :: ns, st =>
      match evaluate ctx fuel n st with
      | (.error e, st1) => (.error e, st1)
      | (.ok v, st1) =>
        match evalList ctx fuel ns st1 with
        | (.error e, st2) => (.error e, st2)
        | (.ok vs, st2) => (.ok (v :: vs), st2)
  termination_by structural fuel _ _ => fuel

def execute (ctx : Ctx) : Nat → Node → St → Except Err Unit × St
  | 0, _, st => (.error .fuel, st)
  | fuel + 1, stmt, st =>
    match stmt with
    | .Assign name value =>
        match evaluate ctx fuel value st with
        | (.error e, st1) => (.error e, st1)
        | (.ok v, st1) =>
            (.ok (), { st1 with memory := dinsert st1.memory (some name) v })
    | .ListAssign name values =>
        match evalList ctx fuel values st with
        | (.error e, st1) => (.error e, st1)
        | (.ok vs, st1) =>
            (.ok (), { st1 with memory := dinsert st1.memory name (.list vs) })
    | .AssignListElement listName index value =>
        match evaluate ctx fuel index st with
        | (.error e, st1) => (.error e, st1)
        | (.ok idx, st1) =>
          match evaluate ctx fuel value st1 with
          | (.error e, st2) => (.error e, st2)
          | (.ok v, st2) =>
            match dlookup st2.memory (some listName) with
            | Option.none =>
                (.error (.host s!"Undefined list \'{listName}\'"), st2)
            | some lst =>
              match pySetIndex lst idx v with
              | .error e => (.error e, st2)
              | .ok newLst =>
                  (.ok (), { st2 with
                    memory := dinsert st2.memory (some listName) newLst })
    | .Print expr =>
        match evaluate ctx fuel expr st with
        | (.error e, st1) => (.error e, st1)
        | (.ok v, st1) => (.ok (), { st1 with output := st1.output ++ [v] })
    | .Input prompt =>
        let st1 := match prompt with
          | some p => { st with output := st.output ++ [Value.str p] }
          | Option.none => st
        match st1.inputs with
        | [] => (.error (.host "EOFError"), st1)
        | _ :: rest => (.ok (), { st1 with inputs := rest })
    | .Conditionals cond body ec eb el =>
        match evaluate ctx fuel cond st with
        | (.error e, st1) => (.error e, st1)
        | (.ok c, st1) =>
          if truthy c then execList ctx fuel body st1
          else
            match ec with
            | some econd =>
                match evaluate ctx fuel econd st1 with
                | (.error e, st2) => (.error e, st2)
                | (.ok c2, st2) =>
                  if truthy c2 then execList ctx fuel eb st2
                  else
                    match el with
                    | some ebody => execList ctx fuel ebody st2
                    | Option.none => (.ok (), st2)
            | Option.none =>
                match el with
                | some ebody => execList ctx fuel ebody st1
                | Option.none => (.ok (), st1)
    | .WhileLoop cond body => execWhile ctx fuel cond body st
    | .ForLoop v start stop body =>
        match evaluate ctx fuel start st with
        | (.error e, st1) => (.error e, st1)
        | (.ok sv, st1) =>
          match evaluate ctx fuel stop st1 with
          | (.error e, st2) => (.error e, st2)
          | (.ok ev, st2) =>
            match asInt sv, asInt ev with
            | some i, some j => execFor ctx fuel v i j body st2
            | _, _ => (.error (.host "TypeError: range expects integers"), st2)
    | .Functions name params body =>
        (.ok (), { st with
          functions := dinsert st.functions name (.Functions name params body) })
    | .FunctionCall callee args =>
        match callee with
        | .name s =>
          let fopt : Option Node :=
            match dlookup st.functions s with
            | some f => some f
            | Option.none => findModuleFunction st.modules s
          match fopt with
          | Option.none =>
              match evaluate ctx fuel (.FunctionCall callee args) st with
              | (.error e, st1) => (.error e, st1)
              | (.ok _, st1) => (.ok (), st1)
          | some (.Functions _ params body) =>
              if args.length != params.length then
                (.error (.host s!"Function \'{s}\' expects {params.length} arguments but got {args.length}"), st)
              else
                match evalList ctx fuel args st with
                | (.error e, st1) => (.error e, st1)
                | (.ok argv, st1) =>
                  let oldMemory := st1.memory
                  let merged := dmerge st1.memory
                    ((params.zip argv).map fun pv => (some pv.1, pv.2))
                  match execList ctx fuel body { st1 with memory := merged } with
                  | (.error e, st2) => (.error e, st2)
                  | (.ok _, st2) => (.ok (), { st2 with memory := oldMemory })
          | some _ => (.error (.host "AttributeError"), st)
        | .moduleAccess _ _ =>
            match evaluate ctx fuel (.FunctionCall callee args) st with
            | (.error e, st1) => (.error e, st1)
            | (.ok _, st1) => (.ok (), st1)
    | .ListAccessPos _ _ | .BinOp _ _ _ | .Variable _ | .Number _ | .Str _ =>
        match evaluate ctx fuel stmt st with
        | (.error e, st1) => (.error e, st1)
        | (.ok _, st1) => (.ok (), st1)
    | .ImportStatement path aliasName =>
        let moduleName := aliasName.getD (stemOf path)
        match ctx.fs path with
        | Option.none => (.error (.host "FileNotFoundError"), st)
        | some code =>
          match tokenize code with
          | .error e => (.error e, st)
          | .ok toks =>
            match ctx.parse toks with
            | .error e => (.error e, st)
            | .ok ast =>
              match importContent ctx fuel ast [] st with
              | (.error e, st1) => (.error e, st1)
              | (.ok content, st1) =>
                  (.ok (), { st1 with
                    modules := dinsert st1.modules moduleName content })
    | _ => (.error (.host "Unknown statement type"), st)
  termination_by structural fuel _ _ => fuel

def execList (ctx : Ctx) : Nat → List Node → St → Except Err Unit × St
  | 0, _, st => (.error .fuel, st)
  | _ + 1, [], st => (.ok (), st)
  | fuel + 1, n :: ns, st =>
      match execute ctx fuel n st with
      | (.error e, st1) => (.error e, st1)
      | (.ok _, st1) => execList ctx fuel ns st1
  termination_by structural fuel _ _ => fuel

def execWhile (ctx : Ctx) : Nat → Node → List Node → St → Except Err Unit × St
  | 0, _, _, st => (.error .fuel, st)
  | fuel + 1, cond, body, st =>
      match evaluate ctx fuel cond st with
      | (.error e, st1) => (.error e, st1)
      | (.ok c, st1) =>
        if truthy c then
          match execList ctx fuel body st1 with
          | (.error e, st2) => (.error e, st2)
          | (.ok _, st2) => execWhile ctx fuel cond body st2
        else (.ok (), st1)
  termination_by structural fuel _ _ _ => fuel

def execFor (ctx : Ctx) : Nat → String → Int → Int → List Node → St → Except Err Unit × St
  | 0, _, _, _, _, st => (.error .fuel, st)
  | fuel + 1, v, i, stop, body, st =>
      if i < stop then
        match execList ctx fuel body
            { st with memory := dinsert st.memory (some v) (.num (i : Int)) } with
        | (.error e, st1) => (.error e, st1)
        | (.ok _, st1) => execFor ctx fuel v (i + 1) stop body st1
      else (.ok (), st)
  termination_by structural fuel _ _ _ _ _ => fuel

def importContent (ctx : Ctx) :
    Nat → List Node → List (String × Value) → St →
      Except Err (List (String × Value)) × St
  | 0, _, _, st => (.error .fuel, st)
  | _ + 1, [], acc, st => (.ok acc, st)
  | fuel + 1, n :: ns, acc, st =>
      match n with
      | .Assign name value =>
          match evaluate ctx fuel value st with
          | (.error e, st1) => (.error e, st1)
          | (.ok v, st1) => importContent ctx fuel ns (dinsert acc name v) st1
      | .Functions fname params body =>
          importContent ctx fuel ns
            (dinsert acc fname (.func (.Functions fname params body))) st
      | _ => importContent ctx fuel ns acc st
  termination_by structural fuel _ _ _ => fuel

end

/-- `run(ast)`: execute the top-level statements in order. -/
def run (ctx : Ctx) (fuel : Nat) (ast : List Node) (st : St) :
    Except Err Unit × St :=
  execList ctx fuel ast st


/-! ## Dict lemmas -/

theorem dlookup_dinsert_self {α β : Type} [DecidableEq α]
    (m : List (α × β)) (k : α) (v : β) :
    dlookup (dinsert m k v) k = some v := by
  induction m with
  | nil => simp [dinsert, dlookup]
  | cons kv rest ih =>
    by_cases h : kv.1 = k
    · simp [dinsert, dlookup, h]
    · simp [dinsert, dlookup, h, ih]

theorem dlookup_dinsert_ne {α β : Type} [DecidableEq α]
    (m : List (α × β)) {k' k : α} (v : β) (h : k' ≠ k) :
    dlookup (dinsert m k' v) k = dlookup m k := by
  induction m with
  | nil => simp [dinsert, dlookup, h]
  | cons kv rest ih =>
    by_cases hk : kv.1 = k'
    · simp [dinsert, dlookup, hk, h]
    · simp [dinsert, dlookup, hk, ih]

/-- Keys not bound by `b` read through `{**a, **b}` to `a`: a callee can
read every caller variable not shadowed by a parameter. -/
theorem dlookup_dmerge_right {α β : Type} [DecidableEq α] :
    ∀ (b a : List (α × β)) (k : α), (∀ kv ∈ b, kv.1 ≠ k) →
      dlookup (dmerge a b) k = dlookup a k := by
  intro b
  induction b with
  | nil => intro a k _; rfl
  | cons kv bs ih =>
    intro a k h
    show dlookup (dmerge (dinsert a kv.1 kv.2) bs) k = _
    rw [ih (dinsert a kv.1 kv.2) k fun x hx => h x (List.mem_cons_of_mem _ hx)]
    exact dlookup_dinsert_ne a kv.2 (h kv (List.mem_cons_self _ _))

/-! ## Concrete contexts and states for closed executions -/

/-- An inert context: the parser and file system are empty and every
builtin behaviour fails (none of the concrete programs below touch
them). -/
def ctx0 : Ctx :=
  { parse := fun _ => .error (.parse "no parser")
  , fs := fun _ => Option.none
  , bimpl := fun _ _ => .error (.host "no builtin behaviour") }

/-- The fresh environment of program start: empty dicts, empty streams. -/
def st0 : St :=
  { memory := [], functions := [], modules := [], classes := []
  , output := [], inputs := [] }

/-- Which error kinds the top-level driver (`main.py`) catches: the three
`BaseError` subclasses.  A `host` exception instead reaches its
`except Exception` branch ("Internal interpreter error", re-raised). -/
def Err.isBaseError : Err → Bool
  | .lexer _ => true
  | .parse _ => true
  | .interp _ => true
  | _ => false

/-- The parameter bindings `dict(zip(func.params, args))` lifted to
`memory`'s `Option String` keys. -/
def paramBindings (params : List String) (argv : List Value) :
    List (Option String × Value) :=
  (params.zip argv).map fun pv => (some pv.1, pv.2)

/-! ## Claim theorems: the evaluator and executor -/

/-- **C1, counterexample.**  The claim says `&&`/`||` short-circuit, so
`false && X` never raises an error that evaluating `X` would raise.  But
the `BinOp` branch evaluates both operands before dispatching on the
operator (evaluator.py lines 34–35): with a falsy left operand `0`,
`0 && x` for undefined `x` raises `x`'s undefined-identifier
`InterpreterError`, and likewise `1 || x` with a truthy left operand. -/
theorem C1_counterexample :
    truthy (.num 0) = false ∧
    evaluate ctx0 2 (.BinOp "&&" (.Number 0) (.Variable "x")) st0 =
      (.error (.interp "ያልታወቀ መለያ ስም -> 'x'"), st0) ∧
    truthy (.num 1) = true ∧
    evaluate ctx0 2 (.BinOp "||" (.Number 1) (.Variable "x")) st0 =
      (.error (.interp "ያልታወቀ መለያ ስም -> 'x'"), st0) :=
  ⟨rfl, rfl, rfl, rfl⟩

/-- **C1, amended.**  For every evaluation of a `BinOp` whose operator is
`&&` or `||`, the left operand is evaluated and then the right operand is
*always* evaluated as well, regardless of the left value; only then does
the operator combine the two values by the host's truthiness rules
(`and`: falsy left gives the left value, else the right; `or` dually).
In particular `false && X` does evaluate `X` and propagates any error
`X` raises. -/
theorem C1_binop_logical_eager (ctx : Ctx) (fuel : Nat) (op : String)
    (hop : op = "&&" ∨ op = "||") (a b : Node) (st st1 st2 : St)
    (va vb : Value) :
    (∀ e, evaluate ctx fuel a st = (.error e, st1) →
      evaluate ctx (fuel + 1) (.BinOp op a b) st = (.error e, st1)) ∧
    (evaluate ctx fuel a st = (.ok va, st1) →
      ∀ e, evaluate ctx fuel b st1 = (.error e, st2) →
        evaluate ctx (fuel + 1) (.BinOp op a b) st = (.error e, st2)) ∧
    (evaluate ctx fuel a st = (.ok va, st1) →
      evaluate ctx fuel b st1 = (.ok vb, st2) →
        evaluate ctx (fuel + 1) (.BinOp op a b) st =
          (.ok (if op = "&&" then (if truthy va then vb else va)
                else (if truthy va then va else vb)), st2)) := by
  refine ⟨?_, ?_, ?_⟩
  · intro e h1
    simp only [evaluate, h1]
  · intro h1 e h2
    simp only [evaluate, h1, h2]
  · intro h1 h2
    rcases hop with rfl | rfl <;>
      · simp only [evaluate, h1, h2]
        rfl

/-- Witness for C1 (amended): `0 && x` with `x` undefined propagates the
right operand's error even though the left operand is falsy. -/
theorem C1_binop_logical_eager_witness :
    evaluate ctx0 2 (.BinOp "&&" (.Number 0) (.Variable "x")) st0 =
      (.error (.interp "ያልታወቀ መለያ ስም -> 'x'"), st0) :=
  (C1_binop_logical_eager ctx0 1 "&&" (Or.inl rfl) (.Number 0)
      (.Variable "x") st0 st0 st0 (.num 0) (.num 0)).2.1 (by rfl) _ (by rfl)

/-- **C2, counterexample.**  The claim says a wrong-arity call fails with
an `InterpreterError` in statement position too; but the executor's
arity check raises a bare host `Exception` (executor.py line 90), which
is not one of the `BaseError` kinds the top-level driver catches. -/
theorem C2_counterexample :
    execute ctx0 1 (.FunctionCall (.name "f") [.Number 1])
      { st0 with functions := [("f", .Functions "f" [] [])] } =
      (.error (.host "Function 'f' expects 0 arguments but got 1"),
       { st0 with functions := [("f", .Functions "f" [] [])] }) ∧
    Err.isBaseError (.host "Function 'f' expects 0 arguments but got 1") =
      false :=
  ⟨rfl, rfl⟩

/-- **C2, amended.**  A user-defined function call with a wrong argument
count always fails before any statement of the function body runs, with
an error message naming both the expected and the actual count — but the
error kind differs by position: in statement position the executor
raises a bare host `Exception` *before even evaluating the arguments*
(the state is returned unchanged), while in expression position the
evaluator raises an `InterpreterError` *after* evaluating the arguments
(the state is the post-argument state). -/
theorem C2_arity_mismatch (ctx : Ctx) (fuel : Nat) (st st1 : St)
    (s fname : String) (params : List String) (body : List Node)
    (args : List Node) (argv : List Value) :
    (dlookup st.functions s = some (.Functions fname params body) →
      args.length ≠ params.length →
      execute ctx (fuel + 1) (.FunctionCall (.name s) args) st =
        (.error (.host s!"Function '{s}' expects {params.length} arguments but got {args.length}"),
         st)) ∧
    (evaluate ctx fuel (.Variable s) st =
        (.ok (.func (.Functions fname params body)), st) →
      evalList ctx fuel args st = (.ok argv, st1) →
      argv.length ≠ params.length →
      evaluate ctx (fuel + 1) (.FunctionCall (.name s) args) st =
        (.error (.interp s!"ተግባር '{fname}' {params.length} ፓራሜተሮችን ጠብቆ ነበር ግን {argv.length} አገኘ።"),
         st1)) := by
  constructor
  · intro hfun hne
    simp only [execute, hfun]
    rw [if_pos (bne_iff_ne.mpr hne)]
  · intro hres hargs hne
    simp only [evaluate, hres, hargs]
    rw [if_pos (bne_iff_ne.mpr hne)]

/-- Witness for C2 (amended): both positions at a concrete nullary
function called with one argument. -/
theorem C2_arity_mismatch_witness :
    execute ctx0 1 (.FunctionCall (.name "g") [.Number 1])
      { st0 with functions := [("g", .Functions "g" [] [])] } =
      (.error (.host "Function 'g' expects 0 arguments but got 1"),
       { st0 with functions := [("g", .Functions "g" [] [])] }) ∧
    evaluate ctx0 3 (.FunctionCall (.name "g") [.Number 1])
      { st0 with memory := [(some "g", .func (.Functions "g" [] []))] } =
      (.error (.interp "ተግባር 'g' 0 ፓራሜተሮችን ጠብቆ ነበር ግን 1 አገኘ።"),
       { st0 with memory := [(some "g", .func (.Functions "g" [] []))] }) :=
  ⟨(C2_arity_mismatch ctx0 0
      { st0 with functions := [("g", .Functions "g" [] [])] }
      st0 "g" "g" [] [] [.Number 1] []).1 rfl (by decide),
   (C2_arity_mismatch ctx0 2
      { st0 with memory := [(some "g", .func (.Functions "g" [] []))] }
      { st0 with memory := [(some "g", .func (.Functions "g" [] []))] }
      "g" "g" [] [] [.Number 1] [.num 1]).2 (by rfl) (by rfl) (by decide)⟩

/-- **C3.**  For every user-defined function call that completes — in
expression position (`evaluate`, evaluator.py 84–101) and in statement
position (`execute`, executor.py 87–106) alike — the callee's starting
variable scope is the caller's entire mapping
`{**memory, **dict(zip(params, args))}` — so the callee reads every
caller variable not shadowed by a parameter — and after the body runs
the caller's scope (as of argument-evaluation time) is restored. -/
theorem C3_call_scope_merge_restore (ctx : Ctx) (fuel : Nat)
    (s fname : String) (params : List String) (body : List Node)
    (args : List Node) (argv : List Value) (st st1 st2 : St) :
    (evaluate ctx fuel (.Variable s) st =
        (.ok (.func (.Functions fname params body)), st) →
      evalList ctx fuel args st = (.ok argv, st1) →
      argv.length = params.length →
      execList ctx fuel body
          { st1 with memory := dmerge st1.memory (paramBindings params argv) } =
        (.ok (), st2) →
      evaluate ctx (fuel + 1) (.FunctionCall (.name s) args) st =
        (.ok .none, { st2 with memory := st1.memory })) ∧
    (dlookup st.functions s = some (.Functions fname params body) →
      args.length = params.length →
      evalList ctx fuel args st = (.ok argv, st1) →
      execList ctx fuel body
          { st1 with memory := dmerge st1.memory (paramBindings params argv) } =
        (.ok (), st2) →
      execute ctx (fuel + 1) (.FunctionCall (.name s) args) st =
        (.ok (), { st2 with memory := st1.memory })) ∧
    (∀ (k : Option String),
      (∀ kv ∈ paramBindings params argv, kv.1 ≠ k) →
      dlookup (dmerge st1.memory (paramBindings params argv)) k =
        dlookup st1.memory k) := by
  refine ⟨?_, ?_, ?_⟩
  · intro hres hargs hlen hbody
    simp only [evaluate, hres, hargs]
    rw [if_neg (by simp [hlen])]
    simp only [paramBindings] at hbody
    simp only [hbody]
  · intro hfun hlen hargs hbody
    simp only [execute, hfun]
    rw [if_neg (by simp [hlen])]
    simp only [paramBindings] at hbody
    simp only [hargs, hbody]
  · intro k hk
    exact dlookup_dmerge_right (paramBindings params argv) st1.memory k hk

/-- Witness for C3: `f` has no parameters, reads the caller's `b` and
prints it.  In expression position the call returns `None`, leaves the
print in the output and restores the caller's mapping; in statement
position it likewise runs the body against the merged scope and restores
the caller's mapping. -/
theorem C3_call_scope_merge_restore_witness :
    (evaluate ctx0 4 (.FunctionCall (.name "f") [])
      { st0 with memory :=
          [(some "b", .num 5), (some "f", .func (.Functions "f" [] [.Print (.Variable "b")]))] } =
      (.ok .none,
       { st0 with
          memory :=
            [(some "b", .num 5), (some "f", .func (.Functions "f" [] [.Print (.Variable "b")]))]
          , output := [.num 5] })) ∧
    (execute ctx0 4 (.FunctionCall (.name "f") [])
      { st0 with
          memory := [(some "b", .num 5)]
          , functions := [("f", .Functions "f" [] [.Print (.Variable "b")])] } =
      (.ok (),
       { st0 with
          memory := [(some "b", .num 5)]
          , functions := [("f", .Functions "f" [] [.Print (.Variable "b")])]
          , output := [.num 5] })) := by
  constructor
  · exact (C3_call_scope_merge_restore ctx0 3 "f" "f" [] [.Print (.Variable "b")] []
      []
      { st0 with memory :=
          [(some "b", .num 5), (some "f", .func (.Functions "f" [] [.Print (.Variable "b")]))] }
      { st0 with memory :=
          [(some "b", .num 5), (some "f", .func (.Functions "f" [] [.Print (.Variable "b")]))] }
      { st0 with
          memory :=
            [(some "b", .num 5), (some "f", .func (.Functions "f" [] [.Print (.Variable "b")]))]
          , output := [.num 5] }).1 (by rfl) (by rfl) (by rfl) (by rfl)
  · exact ((C3_call_scope_merge_restore ctx0 3 "f" "f" [] [.Print (.Variable "b")] []
      []
      { st0 with
          memory := [(some "b", .num 5)]
          , functions := [("f", .Functions "f" [] [.Print (.Variable "b")])] }
      { st0 with
          memory := [(some "b", .num 5)]
          , functions := [("f", .Functions "f" [] [.Print (.Variable "b")])] }
      { st0 with
          memory := [(some "b", .num 5)]
          , functions := [("f", .Functions "f" [] [.Print (.Variable "b")])]
          , output := [.num 5] }).2.1 (by rfl) (by rfl) (by rfl) (by rfl)).trans
      (by rfl)

/-- **C4, counterexample.**  The claim says the executor's internally
detected inconsistencies (undefined list, wrong statement-position
arity, unknown statement shape) raise `InterpreterError`; in fact all
three are bare host `Exception`s (executor.py lines 25, 90, 142), a kind
the top-level driver's `except BaseError` does not catch. -/
theorem C4_counterexample :
    execute ctx0 2 (.AssignListElement "L" (.Number 0) (.Number 1)) st0 =
      (.error (.host "Undefined list 'L'"), st0) ∧
    Err.isBaseError (.host "Undefined list 'L'") = false :=
  ⟨rfl, rfl⟩

/-- **C4, amended.**  The executor's three internally detected
inconsistencies raise bare host `Exception`s, not `InterpreterError`:
assigning an element of an undefined list (after evaluating index and
value), a wrong-arity statement-position call, and a statement of
unknown shape (for example a bare `ModuleAccess` or `ClassCall` in
statement position).  None of them is of the `BaseError` kind the
top-level driver catches. -/
theorem C4_executor_host_errors (ctx : Ctx) (fuel : Nat)
    (st st1 st2 : St) (l s fname m x : String) (params : List String)
    (body fns args : List Node) (index value : Node) (idx v : Value) :
    (evaluate ctx fuel index st = (.ok idx, st1) →
      evaluate ctx fuel value st1 = (.ok v, st2) →
      dlookup st2.memory (some l) = Option.none →
      execute ctx (fuel + 1) (.AssignListElement l index value) st =
        (.error (.host s!"Undefined list '{l}'"), st2)) ∧
    (dlookup st.functions s = some (.Functions fname params body) →
      args.length ≠ params.length →
      execute ctx (fuel + 1) (.FunctionCall (.name s) args) st =
        (.error (.host s!"Function '{s}' expects {params.length} arguments but got {args.length}"),
         st)) ∧
    (execute ctx (fuel + 1) (.ModuleAccess m x) st =
        (.error (.host "Unknown statement type"), st)) ∧
    (execute ctx (fuel + 1) (.ClassCall s fns) st =
        (.error (.host "Unknown statement type"), st)) ∧
    (∀ msg, Err.isBaseError (.host msg) = false) := by
  refine ⟨?_, ?_, rfl, rfl, fun _ => rfl⟩
  · intro hidx hval hmem
    simp only [execute, hidx, hval, hmem]
  · intro hfun hne
    simp only [execute, hfun]
    rw [if_pos (bne_iff_ne.mpr hne)]

/-- Witness for C4 (amended): the three inconsistencies at concrete
inputs. -/
theorem C4_executor_host_errors_witness :
    execute ctx0 2 (.AssignListElement "L" (.Number 0) (.Number 1)) st0 =
      (.error (.host "Undefined list 'L'"), st0) ∧
    execute ctx0 1 (.ModuleAccess "m" "y") st0 =
      (.error (.host "Unknown statement type"), st0) :=
  ⟨(C4_executor_host_errors ctx0 1 st0 st0 st0 "L" "s" "s" "m" "y" [] [] []
      [] (.Number 0) (.Number 1) (.num 0) (.num 1)).1 (by rfl) (by rfl) (by rfl),
   (C4_executor_host_errors ctx0 0 st0 st0 st0 "L" "s" "s" "m" "y" [] [] []
      [] (.Number 0) (.Number 1) (.num 0) (.num 1)).2.2.1⟩

/-- **C7.**  Executing a for-loop evaluates the start and end expressions
exactly once, before the first iteration: execution reduces to `execFor`
over the two already-computed integer bounds, which binds the loop
variable in the enclosing scope (a plain `memory` write, no loop scope)
for each integer of the half-open range and runs the body; in
particular `FOR (i, FROM 0 TO 3)` with a printing body prints exactly
0, 1, 2 and leaves `i = 2` in the enclosing scope. -/
theorem C7_for_loop (ctx : Ctx) (fuel : Nat) (v : String)
    (start stop : Node) (body : List Node) (st st1 st2 : St)
    (sv ev : Value) (i j : Int) :
    (evaluate ctx fuel start st = (.ok sv, st1) →
      evaluate ctx fuel stop st1 = (.ok ev, st2) →
      asInt sv = some i → asInt ev = some j →
      execute ctx (fuel + 1) (.ForLoop v start stop body) st =
        execFor ctx fuel v i j body st2) ∧
    (∀ st' : St, ∀ fuel' : Nat, i < j →
      execFor ctx (fuel' + 1) v i j body st' =
        match execList ctx fuel' body
            { st' with memory := dinsert st'.memory (some v) (.num (i : Int)) } with
        | (.error e, st'') => (.error e, st'')
        | (.ok _, st'') => execFor ctx fuel' v (i + 1) j body st'') ∧
    (∀ st' : St, ∀ fuel' : Nat, ¬ i < j →
      execFor ctx (fuel' + 1) v i j body st' = (.ok (), st')) ∧
    (run ctx0 10 [.ForLoop "i" (.Number 0) (.Number 3)
        [.Print (.Variable "i")]] st0 =
      (.ok (), { st0 with
        memory := [(some "i", .num 2)]
        , output := [.num 0, .num 1, .num 2] })) := by
  refine ⟨?_, ?_, ?_, rfl⟩
  · intro hstart hstop hi hj
    simp only [execute, hstart, hstop, hi, hj]
  · intro st' fuel' hij
    simp only [execFor]
    rw [if_pos hij]
  · intro st' fuel' hij
    simp only [execFor]
    rw [if_neg hij]

/-- Witness for C7: the bounds of `FOR (i, FROM 0 TO 3)` evaluate once to
0 and 3 and execution reduces to the integer iteration. -/
theorem C7_for_loop_witness :
    execute ctx0 3 (.ForLoop "i" (.Number 0) (.Number 3)
        [.Print (.Variable "i")]) st0 =
      execFor ctx0 2 "i" 0 3 [.Print (.Variable "i")] st0 :=
  (C7_for_loop ctx0 2 "i" (.Number 0) (.Number 3) [.Print (.Variable "i")]
      st0 st0 st0 (.num 0) (.num 3) 0 3).1 (by rfl) (by rfl) (by rfl) (by rfl)

/-- **C9.**  If a statement of a user-defined function body raises an
error, the saved caller mapping is never restored: the call (in either
expression or statement position) propagates the error together with
the callee-side state — the environment is left holding the callee's
merged scope as further mutated by the partially executed body. -/
theorem C9_error_no_scope_restore (ctx : Ctx) (fuel : Nat)
    (s fname : String) (params : List String) (body : List Node)
    (args : List Node) (argv : List Value) (st st1 st2 : St) (e : Err) :
    (evaluate ctx fuel (.Variable s) st =
        (.ok (.func (.Functions fname params body)), st) →
      evalList ctx fuel args st = (.ok argv, st1) →
      argv.length = params.length →
      execList ctx fuel body
          { st1 with memory := dmerge st1.memory (paramBindings params argv) } =
        (.error e, st2) →
      evaluate ctx (fuel + 1) (.FunctionCall (.name s) args) st =
        (.error e, st2)) ∧
    (dlookup st.functions s = some (.Functions fname params body) →
      args.length = params.length →
      evalList ctx fuel args st = (.ok argv, st1) →
      execList ctx fuel body
          { st1 with memory := dmerge st1.memory (paramBindings params argv) } =
        (.error e, st2) →
      execute ctx (fuel + 1) (.FunctionCall (.name s) args) st =
        (.error e, st2)) := by
  constructor
  · intro hres hargs hlen hbody
    simp only [evaluate, hres, hargs]
    rw [if_neg (by simp [hlen])]
    simp only [paramBindings] at hbody
    simp only [hbody]
  · intro hfun hlen hargs hbody
    simp only [execute, hfun]
    rw [if_neg (by simp [hlen])]
    simp only [paramBindings] at hbody
    simp only [hargs, hbody]

/-- Witness for C9: `f(p)` assigns `x` and then hits an undefined
identifier; the error emerges with the memory still holding the merged
callee scope (`p = 7` and the body's `x = 3` included), not the
caller's two-entry mapping. -/
theorem C9_error_no_scope_restore_witness :
    evaluate ctx0 5 (.FunctionCall (.name "f") [.Number 7])
      { st0 with memory :=
          [(some "a", .num 1),
           (some "f", .func (.Functions "f" ["p"]
             [.Assign "x" (.Number 3), .Print (.Variable "zz")]))] } =
      (.error (.interp "ያልታወቀ መለያ ስም -> 'zz'"),
       { st0 with memory :=
          [(some "a", .num 1),
           (some "f", .func (.Functions "f" ["p"]
             [.Assign "x" (.Number 3), .Print (.Variable "zz")])),
           (some "p", .num 7), (some "x", .num 3)] }) :=
  (C9_error_no_scope_restore ctx0 4 "f" "f" ["p"]
      [.Assign "x" (.Number 3), .Print (.Variable "zz")] [.Number 7]
      [.num 7]
      { st0 with memory :=
          [(some "a", .num 1),
           (some "f", .func (.Functions "f" ["p"]
             [.Assign "x" (.Number 3), .Print (.Variable "zz")]))] }
      { st0 with memory :=
          [(some "a", .num 1),
           (some "f", .func (.Functions "f" ["p"]
             [.Assign "x" (.Number 3), .Print (.Variable "zz")]))] }
      { st0 with memory :=
          [(some "a", .num 1),
           (some "f", .func (.Functions "f" ["p"]
             [.Assign "x" (.Number 3), .Print (.Variable "zz")])),
           (some "p", .num 7), (some "x", .num 3)] }
      (.interp "ያልታወቀ መለያ ስም -> 'zz'")).1 (by rfl) (by rfl) (by rfl) (by rfl)

/-- **C6.**  Executing an import reads the referenced source from the
file system, runs it through the lexer (`tokenize`) and the parser, folds
the resulting top-level statements into a flat mapping (`importContent`
keeps exactly the `Assign` values and `Functions` definitions) and
installs that mapping as a named module under the alias or the path stem
— overwriting, never consulting, any module previously installed under
that name: the hypothesis `hprev` exhibits an arbitrary pre-existing
entry, and the freshly computed `content` replaces it. -/
theorem C6_import_no_cache (ctx : Ctx) (fuel : Nat) (path : String)
    (aliasName : Option String) (st st1 : St) (src : String)
    (toks : List Token) (ast : List Node)
    (content prev : List (String × Value)) :
    ctx.fs path = some src →
    tokenize src = .ok toks →
    ctx.parse toks = .ok ast →
    importContent ctx fuel ast [] st = (.ok content, st1) →
    dlookup st.modules (aliasName.getD (stemOf path)) =
      some prev →
    execute ctx (fuel + 1) (.ImportStatement path aliasName) st =
      (.ok (),
       { st1 with
          modules := dinsert st1.modules
            (aliasName.getD (stemOf path)) content }) ∧
    dlookup (dinsert st1.modules
        (aliasName.getD (stemOf path)) content)
        (aliasName.getD (stemOf path)) = some content := by
  intro hfs htok hparse hcontent hprev
  constructor
  · simp only [execute, hfs, htok, hparse, hcontent]
  · exact dlookup_dinsert_self _ _ _

/-- A file system holding one module source, a parser fixed on its AST
(the parser composition is not among the provided sources; see `Ctx`),
and a state in which the module name `lib` is already occupied by stale
content. -/
def ctxC6 : Ctx :=
  { parse := fun _ =>
      .ok [.Assign "x" (.Number 1), .Functions "g" [] [], .Print (.Number 5)]
  , fs := fun p => if p = "lib.aby" then some "x = 1" else Option.none
  , bimpl := fun _ _ => .error (.host "no builtin behaviour") }

def stC6 : St := { st0 with modules := [("lib", [("old", .num 0)])] }

/-- Witness for C6: importing `lib.aby` re-reads and re-runs the file and
overwrites the stale `lib` module with the fresh flat mapping (the
`Assign` value and the `Functions` definition; the `Print` statement
contributes nothing). -/
theorem C6_import_no_cache_witness :
    execute ctxC6 5 (.ImportStatement "lib.aby" Option.none) stC6 =
      (.ok (),
       { stC6 with modules :=
          [("lib", [("x", .num 1), ("g", .func (.Functions "g" [] []))])] }) ∧
    dlookup stC6.modules "lib" = some [("old", .num 0)] := by
  refine ⟨?_, by rfl⟩
  have h := (C6_import_no_cache ctxC6 4 "lib.aby" Option.none stC6 stC6 "x = 1"
      [⟨"IDENTIFIER", some ['x'], 1, 1⟩, ⟨"EQUAL", some ['='], 1, 3⟩,
       ⟨"NUMBER", some ['1'], 1, 5⟩, ⟨"EOF", Option.none, 1, 6⟩]
      [.Assign "x" (.Number 1), .Functions "g" [] [], .Print (.Number 5)]
      [("x", .num 1), ("g", .func (.Functions "g" [] []))]
      [("old", .num 0)]
      (by rfl) (by rfl) (by rfl) (by rfl) (by rfl)).1
  exact h.trans (by rfl)

end Abyssinia
